import Mathlib

/-!
# Journal reconstruction of the `information` command

A shallow embedding of the journal part of `CmdInfo::execute` and of
`CmdInfo::formatForInfo` (src/commands/CmdInfo.cpp), with theorems about
the ordering, grouping and narrative stages.

Conventions of the embedding

* `std::vector<Operation>` is a `List Operation`, an index is a `Nat`.
* `time_t` and `long` values are `Int` (epoch seconds; the subtractions of
  the source are taken without overflow).
* A call that can throw returns `Except Err _`; a failed `assert` is an
  error too.
* The helper `format` of the sources, which puts its arguments in the
  places marked in a pattern, is the concatenation of the pieces.
* The collaborators whose code lies outside CmdInfo.cpp (date parsing,
  duration formatting, attribute rendering, attribute classification) are
  the fields of `Env`; every theorem holds for every `Env`.
-/

namespace CmdInfo

/-! ## Data model -/

/-- The four kinds of operation of the replica. -/
inductive Kind where
  | Create
  | Update
  | Delete
  | UndoPoint
  deriving DecidableEq

/-- Modelled from the spec: the class `Operation` is declared in Operation.h,
which is not part of the sources at hand. An operation has a kind; the
getters `get_property`, `get_value`, `get_old_value` and `get_timestamp`
are the payload of an `Update` (the source reads them on updates only). -/
structure Operation where
  kind : Kind
  get_property : String
  get_value : Option String
  get_old_value : Option String
  get_timestamp : Int
  deriving DecidableEq

/-- The test `Operation::is_update`. -/
def Operation.is_update (op : Operation) : Bool :=
  decide (op.kind = Kind.Update)

/-- The exceptions that can leave `formatForInfo`, and the failed `assert`. -/
inductive Err where
  /-- The `std::string` thrown by the `Datetime` constructor on a value that
  is not a date. -/
  | invalid_date
  /-- The `std::bad_optional_access` thrown by `std::optional::value`. -/
  | bad_optional_access
  /-- A failed `assert(operation.is_update())`. -/
  | assertion
  /-- The loop counter of the model ran out (never reached, see
  `journalLoop_fuel`). -/
  | fuel
  deriving DecidableEq

deriving instance DecidableEq for Except

/-- The collaborators of CmdInfo.cpp that are defined elsewhere. -/
structure Env where
  /-- The epoch of `Datetime(value)`; `none` when the constructor throws. -/
  parseDatetime : String → Option Int
  /-- The text of `Duration(seconds).format()`. -/
  formatDuration : Int → String
  /-- The function `renderAttribute(name, value, format)` of feedback.h. -/
  renderAttribute : String → String → String → String
  /-- The test `Task::isAnnotationAttr`. -/
  isAnnotationAttr : String → Bool
  /-- The test `Task::isTagAttr`. -/
  isTagAttr : String → Bool
  /-- The test `Task::isDepAttr`. -/
  isDepAttr : String → Bool
  /-- The function `Task::attr2Tag`. -/
  attr2Tag : String → String
  /-- The function `Task::attr2Dep`. -/
  attr2Dep : String → String

/-- Modelled from the spec: `Lexer::ucFirst` is defined in Lexer.cpp, which
is not part of the sources at hand; the spec describes it as the property
name with its first character upper-cased. -/
def ucFirst (input : String) : String :=
  match input.data with
  | [] => input
  | c :: cs => String.mk (c.toUpper :: cs)

/-- One row of the journal table: the timestamp of the anchor (the source
prints it with `Datetime::toString(dateformat)`) and the narrative. -/
structure JournalRow where
  timestamp : Int
  description : String
  deriving DecidableEq

/-! ## The ordering stage -/

/-- Modelled from the spec: the rank of a kind in `Operation::operator<`,
which is defined in Operation.cpp, not part of the sources at hand:
Create(0) < Update(1) < Delete(2) < UndoPoint(3), as the comment at the call
of `std::sort` also says. -/
def Kind.rank : Kind → Nat
  | Kind.Create => 0
  | Kind.Update => 1
  | Kind.Delete => 2
  | Kind.UndoPoint => 3

/-- Modelled from the spec: `Operation::operator<`, by kind rank first and
by ascending timestamp second. -/
def Operation.lt (a b : Operation) : Bool :=
  decide (a.kind.rank < b.kind.rank) ||
    (decide (a.kind.rank = b.kind.rank) && decide (a.get_timestamp < b.get_timestamp))

/-- The call `std::sort(operations.begin(), operations.end())` of line 516,
taken by what the C++ standard library guarantees of its result: `output`
is a permutation of `input` in which no element is less than an earlier
one. The library does not say in which order equivalent elements come out
(that is `std::stable_sort`), so the call is a relation between the vector
before and after, not a function. -/
def IsStdSort (input output : List Operation) : Prop :=
  output.Perm input ∧ output.Pairwise (fun a b => b.lt a = false)

/-- Stability in the words of the spec: the operations of one kind and one
timestamp come out in their input order. -/
def IsStable (input output : List Operation) : Prop :=
  ∀ (k : Kind) (t : Int),
    output.filter (fun o => decide (o.kind = k ∧ o.get_timestamp = t)) =
      input.filter (fun o => decide (o.kind = k ∧ o.get_timestamp = t))

/-! ## `std::sort`

The call of line 516 runs the `std::sort` of the C++ library that the
program is built with. The definitions below follow `std::__sort` of the GNU
library (libstdc++ 12, `bits/stl_algo.h` and `bits/stl_heap.h`), function
by function and under the names of the library: an introsort with a
median-of-three partition above sixteen elements, a heap sort when the depth
limit runs out, and a final insertion sort. The vector is a list, an
iterator is an index into it, and `lt` is the comparison. A read outside
the vector, which the library never performs on a strict weak ordering,
leaves the vector as it is. -/

section StdSort

variable {α : Type}

/-- A comparison `__comp(i, j)` of the elements at two places of the
vector. -/
def compAt (lt : α → α → Bool) (a : List α) (i j : Nat) : Bool :=
  match a[i]?, a[j]? with
  | some x, some y => lt x y
  | _, _ => false

/-- The exchange `std::iter_swap(i, j)`. -/
def iter_swap (a : List α) (i j : Nat) : List α :=
  match a[i]?, a[j]? with
  | some x, some y => (a.set i y).set j x
  | _, _ => a

/-- The assignment `*dst = std::move(*src)`. -/
def moveTo (a : List α) (dst src : Nat) : List α :=
  match a[src]? with
  | some x => a.set dst x
  | none => a

/-- The function `std::__move_median_to_first`. -/
def move_median_to_first (lt : α → α → Bool) (a : List α) (result x b c : Nat) : List α :=
  if compAt lt a x b then
    if compAt lt a b c then iter_swap a result b
    else if compAt lt a x c then iter_swap a result c
    else iter_swap a result x
  else if compAt lt a x c then iter_swap a result x
  else if compAt lt a b c then iter_swap a result c
  else iter_swap a result b

/-- The loop `while (__comp(__first, __pivot)) ++__first` over the elements
from `first` on. -/
def scanUp (lt : α → α → Bool) (pivot : α) : List α → Nat → Nat
  | [], first => first
  | x :: rest, first => if lt x pivot then scanUp lt pivot rest (first + 1) else first

/-- The loop `while (__comp(__pivot, __last)) --__last`. -/
def scanDown (lt : α → α → Bool) (a : List α) (pivot : α) : Nat → Nat
  | 0 => 0
  | last + 1 =>
    match a[last + 1]? with
    | some x => if lt pivot x then scanDown lt a pivot last else last + 1
    | none => last + 1

/-- The function `std::__unguarded_partition`; the result is the vector and
the iterator returned. -/
def unguarded_partition (lt : α → α → Bool) (pivot : Nat) :
    Nat → List α → Nat → Nat → List α × Nat
  | 0, a, first, _ => (a, first)
  | fuel + 1, a, first, last =>
    match a[pivot]? with
    | none => (a, first)
    | some p =>
      let first := scanUp lt p (a.drop first) first
      let last := scanDown lt a p (last - 1)
      if !(decide (first < last)) then (a, first)
      else unguarded_partition lt pivot fuel (iter_swap a first last) (first + 1) last

/-- The function `std::__unguarded_partition_pivot`. -/
def unguarded_partition_pivot (lt : α → α → Bool) (a : List α) (first last : Nat) :
    List α × Nat :=
  let mid := first + (last - first) / 2
  let a := move_median_to_first lt a first (first + 1) mid (last - 1)
  unguarded_partition lt first last a (first + 1) last

/-- The function `std::__push_heap`. -/
def push_heap (lt : α → α → Bool) (first topIndex : Nat) (value : α) :
    Nat → List α → Nat → List α
  | 0, a, holeIndex => a.set (first + holeIndex) value
  | fuel + 1, a, holeIndex =>
    let parent := (holeIndex - 1) / 2
    match a[first + parent]? with
    | some x =>
      if decide (holeIndex > topIndex) && lt x value then
        push_heap lt first topIndex value fuel (a.set (first + holeIndex) x) parent
      else a.set (first + holeIndex) value
    | none => a.set (first + holeIndex) value

/-- The first loop of `std::__adjust_heap`; the result is the vector,
`__holeIndex` and `__secondChild`. -/
def adjust_heap_loop (lt : α → α → Bool) (first len : Nat) :
    Nat → List α → Nat → Nat → List α × Nat × Nat
  | 0, a, holeIndex, secondChild => (a, holeIndex, secondChild)
  | fuel + 1, a, holeIndex, secondChild =>
    if secondChild < (len - 1) / 2 then
      let secondChild := 2 * (secondChild + 1)
      let secondChild :=
        if compAt lt a (first + secondChild) (first + (secondChild - 1)) then secondChild - 1
        else secondChild
      adjust_heap_loop lt first len fuel
        (moveTo a (first + holeIndex) (first + secondChild)) secondChild secondChild
    else (a, holeIndex, secondChild)

/-- The function `std::__adjust_heap`. -/
def adjust_heap (lt : α → α → Bool) (a : List α) (first holeIndex len : Nat) (value : α) :
    List α :=
  let topIndex := holeIndex
  match adjust_heap_loop lt first len len a holeIndex holeIndex with
  | (a, holeIndex, secondChild) =>
    if len % 2 == 0 && secondChild == (len - 2) / 2 then
      let secondChild := 2 * (secondChild + 1)
      let a := moveTo a (first + holeIndex) (first + (secondChild - 1))
      push_heap lt first topIndex value (secondChild - 1) a (secondChild - 1)
    else push_heap lt first topIndex value holeIndex a holeIndex

/-- The function `std::__pop_heap`. -/
def pop_heap (lt : α → α → Bool) (a : List α) (first last result : Nat) : List α :=
  match a[result]? with
  | none => a
  | some value => adjust_heap lt (moveTo a result first) first 0 (last - first) value

/-- The loop of `std::__make_heap`, from `__parent` down to 0. -/
def make_heap_loop (lt : α → α → Bool) (first len : Nat) : Nat → List α → List α
  | 0, a =>
    match a[first]? with
    | none => a
    | some value => adjust_heap lt a first 0 len value
  | parent + 1, a =>
    match a[first + (parent + 1)]? with
    | none => a
    | some value => make_heap_loop lt first len parent (adjust_heap lt a first (parent + 1) len value)

/-- The function `std::__make_heap`. -/
def make_heap (lt : α → α → Bool) (a : List α) (first last : Nat) : List α :=
  if last - first < 2 then a
  else make_heap_loop lt first (last - first) ((last - first - 2) / 2) a

/-- The function `std::__sort_heap`; `n` is `__last - __first`. -/
def sort_heap (lt : α → α → Bool) (first : Nat) : Nat → List α → List α
  | 0, a => a
  | n + 1, a =>
    if n + 1 > 1 then sort_heap lt first n (pop_heap lt a first (first + n) (first + n))
    else a

/-- The loop of `std::__heap_select` over the places from `i` on. -/
def heap_select_loop (lt : α → α → Bool) (first middle : Nat) : Nat → List α → Nat → List α
  | 0, a, _ => a
  | n + 1, a, i =>
    heap_select_loop lt first middle n
      (if compAt lt a i first then pop_heap lt a first middle i else a) (i + 1)

/-- The function `std::__heap_select`. -/
def heap_select (lt : α → α → Bool) (a : List α) (first middle last : Nat) : List α :=
  heap_select_loop lt first middle (last - middle) (make_heap lt a first middle) middle

/-- The function `std::__partial_sort`. -/
def partial_sort (lt : α → α → Bool) (a : List α) (first middle last : Nat) : List α :=
  sort_heap lt first (middle - first) (heap_select lt a first middle last)

/-- The function `std::__introsort_loop`, by recursion on `__depth_limit`. -/
def introsort_loop (lt : α → α → Bool) : Nat → List α → Nat → Nat → List α
  | 0, a, first, last =>
    if last - first > 16 then partial_sort lt a first last last else a
  | depth_limit + 1, a, first, last =>
    if last - first > 16 then
      match unguarded_partition_pivot lt a first last with
      | (a, cut) =>
        introsort_loop lt depth_limit (introsort_loop lt depth_limit a cut last) first cut
    else a

/-- The loop of `std::__unguarded_linear_insert` with `__val` taken out. -/
def linear_insert_loop (lt : α → α → Bool) (val : α) : Nat → List α → List α
  | 0, a => a.set 0 val
  | last + 1, a =>
    match a[last]? with
    | some x =>
      if lt val x then linear_insert_loop lt val last (a.set (last + 1) x)
      else a.set (last + 1) val
    | none => a.set (last + 1) val

/-- The function `std::__unguarded_linear_insert`. -/
def unguarded_linear_insert (lt : α → α → Bool) (a : List α) (last : Nat) : List α :=
  match a[last]? with
  | some val => linear_insert_loop lt val last a
  | none => a

/-- The call `std::move_backward(first, first + n, first + n + 1)`. -/
def move_backward (first : Nat) : Nat → List α → List α
  | 0, a => a
  | n + 1, a => move_backward first n (moveTo a (first + n + 1) (first + n))

/-- The loop of `std::__insertion_sort`, `n` places from `i` on. -/
def insertion_sort_loop (lt : α → α → Bool) (first : Nat) : Nat → List α → Nat → List α
  | 0, a, _ => a
  | n + 1, a, i =>
    insertion_sort_loop lt first n
      (if compAt lt a i first then
        match a[i]? with
        | some val => (move_backward first (i - first) a).set first val
        | none => a
      else unguarded_linear_insert lt a i) (i + 1)

/-- The function `std::__insertion_sort`. -/
def insertion_sort (lt : α → α → Bool) (a : List α) (first last : Nat) : List α :=
  if first == last then a
  else insertion_sort_loop lt first (last - (first + 1)) a (first + 1)

/-- The function `std::__unguarded_insertion_sort`, `n` places from `i`
on. -/
def unguarded_insertion_sort (lt : α → α → Bool) : Nat → List α → Nat → List α
  | 0, a, _ => a
  | n + 1, a, i => unguarded_insertion_sort lt n (unguarded_linear_insert lt a i) (i + 1)

/-- The function `std::__final_insertion_sort`. -/
def final_insertion_sort (lt : α → α → Bool) (a : List α) (first last : Nat) : List α :=
  if last - first > 16 then
    unguarded_insertion_sort lt (last - (first + 16)) (insertion_sort lt a first (first + 16))
      (first + 16)
  else insertion_sort lt a first last

/-- The loop behind `std::__lg`: how often `n` can be halved before it is
below 2. -/
def lgLoop : Nat → Nat → Nat
  | 0, _ => 0
  | fuel + 1, n => if n ≥ 2 then lgLoop fuel (n / 2) + 1 else 0

/-- The function `std::__lg`: the position of the highest bit of `n` that is
set, that is the binary logarithm of `n` rounded down. -/
def lg (n : Nat) : Nat :=
  lgLoop n n

/-- The function `std::__sort` on the whole vector. -/
def stdSort (lt : α → α → Bool) (a : List α) : List α :=
  if a.length != 0 then
    final_insertion_sort lt (introsort_loop lt (lg a.length * 2) a 0 a.length) 0 a.length
  else a

end StdSort

/-! ## The grouping loop of `CmdInfo::execute` -/

/-- The inner loop `for (i++; i < operations.size(); i++)` of the grouping:
`rest` is `operations[i..]`, `op` the anchor; the result is the value of
`i` at the `break` or at the end of the vector, that is `group_end`. -/
def scanGroup (op : Operation) : List Operation → Nat → Nat
  | [], i => i
  | op2 :: rest, i =>
    if !op2.is_update || decide (op2.get_timestamp - op.get_timestamp > 1) then i
    else scanGroup op rest (i + 1)

/-- The outer loop of the grouping, without the call of `formatForInfo`:
the list of the pairs `(group_start, group_end)` in the order the loop
makes them, from index `i` on. -/
def groupLoop (operations : List Operation) : Nat → Nat → List (Nat × Nat)
  | 0, _ => []
  | fuel + 1, i =>
    match operations[i]? with
    | none => []
    | some op =>
      if !op.is_update then groupLoop operations fuel (i + 1)
      else
        let group_start := i
        let group_end := scanGroup op (operations.drop (i + 1)) (i + 1)
        (group_start, group_end) :: groupLoop operations fuel group_end

/-- The groups of an operation list: the loop started at index 0, with one
unit of fuel for each operation. -/
def groups (operations : List Operation) : List (Nat × Nat) :=
  groupLoop operations operations.length 0

/-- The operations `operations[group_start .. group_end)`. -/
def slice (operations : List Operation) (group_start group_end : Nat) : List Operation :=
  (operations.drop group_start).take (group_end - group_start)

/-- An update of `property` at `timestamp`, for the examples. -/
def mkUpdate (property : String) (value old_value : Option String) (timestamp : Int) : Operation :=
  { kind := Kind.Update, get_property := property, get_value := value,
    get_old_value := old_value, get_timestamp := timestamp }

/-- The window property of a group `[gs, ge)`: it starts at an update, the
anchor; every further member is an update at most one second after the
anchor; and the operation at `ge`, if any, is not such an update. -/
def IsWindow (operations : List Operation) (gs ge : Nat) : Prop :=
  ∃ anchor, operations[gs]? = some anchor ∧ anchor.is_update = true ∧
    gs < ge ∧ ge ≤ operations.length ∧
    (∀ j, gs < j → j < ge → ∃ op, operations[j]? = some op ∧ op.is_update = true ∧
      op.get_timestamp - anchor.get_timestamp ≤ 1) ∧
    (∀ op, operations[ge]? = some op →
      ¬ (op.is_update = true ∧ op.get_timestamp - anchor.get_timestamp ≤ 1))

/-! ## `CmdInfo::formatForInfo` -/

/-- The inner loop of the `start` deletion branch (lines 617 to 628): it
walks the whole group and, at every update of `end`, replaces `stopped` by
the date parsed from its value, or by the timestamp of that update when
the `Datetime` constructor throws. `std::optional::value` throws when the
value is absent, and `catch (std::string)` does not handle that. -/
def stopTime (env : Env) : List Operation → Int → Except Err Int
  | [], stopped => .ok stopped
  | op :: rest, stopped =>
    if !op.is_update then .error Err.assertion
    else if op.get_property == "end" then
      match op.get_value with
      | none => .error Err.bad_optional_access
      | some v =>
        match env.parseDatetime v with
        | some d => stopTime env rest d
        | none => stopTime env rest op.get_timestamp
    else stopTime env rest stopped

/-- The block "Handle property deletions" (lines 603 to 636). -/
def handleDeletion (env : Env) (grp : List Operation) (operation : Operation)
    (out : String) (last_start : Int) : Except Err (String × Int) :=
  let prop := operation.get_property
  match operation.get_value, operation.get_old_value with
  | none, some old_value =>
    if env.isAnnotationAttr prop then
      .ok (out ++ ("Annotation '" ++ old_value ++ "' deleted.\n"), last_start)
    else if env.isTagAttr prop then
      .ok (out ++ ("Tag '" ++ env.attr2Tag prop ++ "' deleted.\n"), last_start)
    else if env.isDepAttr prop then
      .ok (out ++ ("Dependency on '" ++ env.attr2Dep prop ++ "' deleted.\n"), last_start)
    else if prop == "start" then
      let started := last_start
      match stopTime env grp operation.get_timestamp with
      | .error e => .error e
      | .ok stopped =>
        .ok (out ++ (ucFirst prop ++ " deleted (duration: " ++
          env.formatDuration (stopped - started) ++ ").") ++ "\n", last_start)
    else
      .ok (out ++ (ucFirst prop ++ " deleted.\n"), last_start)
  | _, _ => .ok (out, last_start)

/-- The block "Handle property additions" (lines 639 to 660). -/
def handleAddition (env : Env) (dateformat : String) (operation : Operation)
    (out : String) (last_start : Int) : Except Err (String × Int) :=
  let prop := operation.get_property
  match operation.get_value, operation.get_old_value with
  | some value, none =>
    if env.isAnnotationAttr prop then
      .ok (out ++ ("Annotation of '" ++ value ++ "' added.\n"), last_start)
    else if env.isTagAttr prop then
      .ok (out ++ ("Tag '" ++ env.attr2Tag prop ++ "' added.\n"), last_start)
    else if env.isDepAttr prop then
      .ok (out ++ ("Dependency on '" ++ env.attr2Dep prop ++ "' added.\n"), last_start)
    else
      let last_start :=
        if prop == "start" then
          match env.parseDatetime value with
          | some d => d
          | none => last_start
        else last_start
      .ok (out ++ (ucFirst prop ++ " set to '" ++
        env.renderAttribute prop value dateformat ++ "'.") ++ "\n", last_start)
  | _, _ => .ok (out, last_start)

/-- The block "Handle property changes" (lines 663 to 679). -/
def handleChange (env : Env) (dateformat : String) (operation : Operation)
    (out : String) (last_start : Int) : Except Err (String × Int) :=
  let prop := operation.get_property
  match operation.get_value, operation.get_old_value with
  | some value, some old_value =>
    if env.isTagAttr prop || env.isDepAttr prop then
      .ok (out, last_start)
    else if env.isAnnotationAttr prop then
      .ok (out ++ ("Annotation changed to '" ++ value ++ "'.\n"), last_start)
    else
      let sentence := ucFirst prop ++ " changed from '" ++
        env.renderAttribute prop old_value dateformat ++ "' to '" ++
        env.renderAttribute prop value dateformat ++ "'."
      if prop == "start" then
        match env.parseDatetime value with
        | none => .error Err.invalid_date
        | some d => .ok (out ++ sentence ++ "\n", d)
      else
        .ok (out ++ sentence ++ "\n", last_start)
  | _, _ => .ok (out, last_start)

/-- The body of the loop of `formatForInfo` for one operation of the group
`grp`: the assertion, the three skipped properties, then the three blocks
in the order of the source. -/
def formatOperation (env : Env) (dateformat : String) (grp : List Operation)
    (operation : Operation) (out : String) (last_start : Int) : Except Err (String × Int) :=
  if !operation.is_update then .error Err.assertion
  else
    let prop := operation.get_property
    if prop == "modified" || prop == "depends" || prop == "tags" then .ok (out, last_start)
    else
      match handleDeletion env grp operation out last_start with
      | .error e => .error e
      | .ok (out, last_start) =>
        match handleAddition env dateformat operation out last_start with
        | .error e => .error e
        | .ok (out, last_start) => handleChange env dateformat operation out last_start

/-- The loop `for (auto i = group_start; i < group_end; i++)` of
`formatForInfo` over the operations still to do, `grp` being the whole
group. -/
def formatLoop (env : Env) (dateformat : String) (grp : List Operation) :
    List Operation → String → Int → Except Err (String × Int)
  | [], out, last_start => .ok (out, last_start)
  | operation :: rest, out, last_start =>
    match formatOperation env dateformat grp operation out last_start with
    | .error e => .error e
    | .ok (out, last_start) => formatLoop env dateformat grp rest out last_start

/-- The end of `formatForInfo`: no narrative when the stream is empty. -/
def finish (r : Except Err (String × Int)) : Except Err (Option String × Int) :=
  match r with
  | .error e => .error e
  | .ok (out, last_start) =>
    if out.length == 0 then .ok (none, last_start) else .ok (some out, last_start)

/-- The function `CmdInfo::formatForInfo`: the narrative of the group
`operations[group_start .. group_end)`, if any, and the new value of the
reference parameter `last_start`. The caller keeps
`group_end ≤ operations.size()`. -/
def formatForInfo (env : Env) (operations : List Operation) (group_start group_end : Nat)
    (dateformat : String) (last_start : Int) : Except Err (Option String × Int) :=
  finish (formatLoop env dateformat (slice operations group_start group_end)
    (slice operations group_start group_end) "" last_start)

/-! ## The journal loop of `CmdInfo::execute` -/

/-- The loop of lines 519 to 552, from index `i` on, with the current value
of `last_timestamp` and the rows added so far. -/
def journalLoop (env : Env) (dateformat : String) (operations : List Operation) :
    Nat → Nat → Int → List JournalRow → Except Err (List JournalRow × Int)
  | 0, _, _, _ => .error Err.fuel
  | fuel + 1, i, last_timestamp, journal =>
    match operations[i]? with
    | none => .ok (journal, last_timestamp)
    | some op =>
      if !op.is_update then journalLoop env dateformat operations fuel (i + 1) last_timestamp journal
      else
        let group_start := i
        let group_end := scanGroup op (operations.drop (i + 1)) (i + 1)
        match formatForInfo env operations group_start group_end dateformat last_timestamp with
        | .error e => .error e
        | .ok (none, last_timestamp) =>
          journalLoop env dateformat operations fuel group_end last_timestamp journal
        | .ok (some msg, last_timestamp) =>
          journalLoop env dateformat operations fuel group_end last_timestamp
            (journal ++ [{ timestamp := op.get_timestamp, description := msg }])

/-- The record whose journal is shown: its stored attributes. The journal
block of `execute` reads only its uuid, to fetch the operations. -/
structure Task where
  get : String → String

/-- The journal block of `CmdInfo::execute` for one task (lines 509 to 553),
on the operations as they are after `std::sort`: `last_timestamp` starts at
0 and the loop starts at index 0. -/
def journal (env : Env) (dateformat : String) (_task : Task) (operations : List Operation) :
    Except Err (List JournalRow) :=
  match journalLoop env dateformat operations (operations.length + 1) 0 0 [] with
  | .error e => .error e
  | .ok (rows, _) => .ok rows

/-! ## The replay as the claims word it -/

/-- The timestamp of the operation at index `gs`, the anchor of a group. -/
def anchorTimestamp (operations : List Operation) (gs : Nat) : Int :=
  match operations[gs]? with
  | some op => op.get_timestamp
  | none => 0

/-- The replay in the words of the spec, to be compared with `journalLoop`:
a fold over the groups in order, each group formatted with the `last_start`
that the groups before it left, a group without narrative giving no row. -/
def replayGroups (env : Env) (dateformat : String) (operations : List Operation) :
    List (Nat × Nat) → Int → List JournalRow → Except Err (List JournalRow × Int)
  | [], last_start, rows => .ok (rows, last_start)
  | (gs, ge) :: rest, last_start, rows =>
    match formatForInfo env operations gs ge dateformat last_start with
    | .error e => .error e
    | .ok (none, last_start) => replayGroups env dateformat operations rest last_start rows
    | .ok (some msg, last_start) =>
      replayGroups env dateformat operations rest last_start
        (rows ++ [{ timestamp := anchorTimestamp operations gs, description := msg }])

/-- The effect of one operation on `last_start` in the words of the spec:
an update of `start` whose new value is present and parses sets it, any
other operation leaves it. -/
def startStep (env : Env) (last_start : Int) (op : Operation) : Int :=
  if op.is_update && op.get_property == "start" then
    match op.get_value with
    | some v =>
      match env.parseDatetime v with
      | some d => d
      | none => last_start
    | none => last_start
  else last_start

/-- The parsed new value of the most recent start addition or change among
the operations `l`, or `seed` when there is none. -/
def lastStartAfter (env : Env) (seed : Int) (l : List Operation) : Int :=
  l.foldl (startStep env) seed

/-! ## An environment for the examples -/

/-- The value of a string of decimal digits, `none` for any other string. -/
def parseEpoch (s : String) : Option Int :=
  if s.data.all Char.isDigit && !s.data.isEmpty then
    some (Int.ofNat (s.data.foldl (fun n c => 10 * n + (c.toNat - 48)) 0))
  else none

/-- Modelled from the spec: an environment for the examples, since the
collaborators are not part of the sources at hand. Dates are epoch strings,
a duration prints as its number of seconds, values are rendered verbatim,
and the classes are told by the prefixes `annotation_`, `tag_` (the spec's
example `tag_work`) and `dep_`. -/
def demoEnv : Env where
  parseDatetime := parseEpoch
  formatDuration := fun d => toString d ++ "s"
  renderAttribute := fun _ value _ => value
  isAnnotationAttr := fun a => "annotation_".data.isPrefixOf a.data
  isTagAttr := fun a => "tag_".data.isPrefixOf a.data
  isDepAttr := fun a => "dep_".data.isPrefixOf a.data
  attr2Tag := fun a => String.mk (a.data.drop 4)
  attr2Dep := fun a => String.mk (a.data.drop 4)

/-- The property `start` is a plain attribute: not an annotation, a tag or
a dependency. -/
def Env.StartScalar (env : Env) : Prop :=
  env.isAnnotationAttr "start" = false ∧ env.isTagAttr "start" = false ∧
    env.isDepAttr "start" = false

/-- Four updates at the times 100, 100, 101 and 102. -/
def fourUpdates : List Operation :=
  [mkUpdate "description" (some "a") none 100, mkUpdate "project" (some "b") none 100,
    mkUpdate "priority" (some "H") none 101, mkUpdate "due" (some "200") none 102]

/-- A creation, two updates, an undo point and one more update. -/
def mixedOperations : List Operation :=
  [{ kind := Kind.Create, get_property := "", get_value := none, get_old_value := none,
     get_timestamp := 0 },
    mkUpdate "description" (some "a") none 100, mkUpdate "project" (some "b") none 101,
    { kind := Kind.UndoPoint, get_property := "", get_value := none, get_old_value := none,
      get_timestamp := 0 },
    mkUpdate "priority" (some "H") none 101]

/-- Seventeen updates of the same instant, one for each of seventeen
properties of a task. -/
def sameInstant : List Operation :=
  ["description", "due", "entry", "modified", "priority", "project", "recur", "scheduled",
    "status", "until", "wait", "parent", "imask", "mask", "end", "start", "uuid"].map
    (fun p => mkUpdate p (some "x") none 100)

/-- An undo point, an update at 101, a creation and an update at 100. -/
def unsortedOperations : List Operation :=
  [{ kind := Kind.UndoPoint, get_property := "", get_value := none, get_old_value := none,
     get_timestamp := 0 },
    mkUpdate "project" (some "b") none 101,
    { kind := Kind.Create, get_property := "", get_value := none, get_old_value := none,
      get_timestamp := 0 },
    mkUpdate "description" (some "a") none 100]

/-- The operations of `unsortedOperations` in sorted order. -/
def sortedOperations : List Operation :=
  [{ kind := Kind.Create, get_property := "", get_value := none, get_old_value := none,
     get_timestamp := 0 },
    mkUpdate "description" (some "a") none 100,
    mkUpdate "project" (some "b") none 101,
    { kind := Kind.UndoPoint, get_property := "", get_value := none, get_old_value := none,
      get_timestamp := 0 }]

/-- A record that stores the start 900. -/
def startedTask : Task where
  get := fun name => if name = "start" then "900" else ""

/-- A record that stores no start. -/
def stoppedTask : Task where
  get := fun _ => ""

/-- The history of `startedTask`: its start is deleted at 1000 and set anew,
to 900, at 2000. -/
def restarted : List Operation :=
  [mkUpdate "start" none (some "500") 1000, mkUpdate "start" (some "900") none 2000]

/-- Two updates of the same second: `start` deleted and `end` deleted. -/
def startAndEndDeleted : List Operation :=
  [mkUpdate "start" none (some "900") 1000, mkUpdate "end" none (some "950") 1000]

/-- The property `start` set at 1000, another property set at 2000, and
`start` deleted at 3000. -/
def startThenStop : List Operation :=
  [mkUpdate "start" (some "900") none 1000, mkUpdate "priority" (some "H") none 2000,
    mkUpdate "start" none (some "900") 3000]

/-- Three groups: a priority set at 100, the legacy `tags` and `modified`
changed at 200, a project set at 300. -/
def skippedBetween : List Operation :=
  [mkUpdate "priority" (some "H") none 100, mkUpdate "tags" (some "a,b") (some "a") 200,
    mkUpdate "modified" (some "200") (some "100") 200,
    mkUpdate "project" (some "home") none 300]


/-- One group: a priority set, `start` deleted and `end` deleted at 1000. -/
def endDeletedGroup : List Operation :=
  [mkUpdate "priority" (some "H") none 1000, mkUpdate "start" none (some "900") 1000,
    mkUpdate "end" none (some "950") 1000]


/-! ## The sentences of a group as the claims word them -/

/-- The sentence that one operation of the group `grp` contributes, if
any, and the value of `last_start` after it: the three blocks of
`formatForInfo` read as a function of the operation, each text taken as the
source writes it to the stream but without the line break that ends it. To
be compared with `formatOperation`. -/
def operationSentence (env : Env) (dateformat : String) (grp : List Operation)
    (operation : Operation) (last_start : Int) : Except Err (Option String × Int) :=
  if !operation.is_update then .error Err.assertion
  else
    let prop := operation.get_property
    if prop == "modified" || prop == "depends" || prop == "tags" then .ok (none, last_start)
    else
      match operation.get_value, operation.get_old_value with
      | none, none => .ok (none, last_start)
      | none, some old_value =>
        if env.isAnnotationAttr prop then
          .ok (some ("Annotation '" ++ old_value ++ "' deleted."), last_start)
        else if env.isTagAttr prop then
          .ok (some ("Tag '" ++ env.attr2Tag prop ++ "' deleted."), last_start)
        else if env.isDepAttr prop then
          .ok (some ("Dependency on '" ++ env.attr2Dep prop ++ "' deleted."), last_start)
        else if prop == "start" then
          match stopTime env grp operation.get_timestamp with
          | .error e => .error e
          | .ok stopped =>
            .ok (some (ucFirst prop ++ " deleted (duration: " ++
              env.formatDuration (stopped - last_start) ++ ")."), last_start)
        else
          .ok (some (ucFirst prop ++ " deleted."), last_start)
      | some value, none =>
        if env.isAnnotationAttr prop then
          .ok (some ("Annotation of '" ++ value ++ "' added."), last_start)
        else if env.isTagAttr prop then
          .ok (some ("Tag '" ++ env.attr2Tag prop ++ "' added."), last_start)
        else if env.isDepAttr prop then
          .ok (some ("Dependency on '" ++ env.attr2Dep prop ++ "' added."), last_start)
        else
          .ok (some (ucFirst prop ++ " set to '" ++
            env.renderAttribute prop value dateformat ++ "'."),
            if prop == "start" then
              match env.parseDatetime value with
              | some d => d
              | none => last_start
            else last_start)
      | some value, some old_value =>
        if env.isTagAttr prop || env.isDepAttr prop then .ok (none, last_start)
        else if env.isAnnotationAttr prop then
          .ok (some ("Annotation changed to '" ++ value ++ "'."), last_start)
        else if prop == "start" then
          match env.parseDatetime value with
          | none => .error Err.invalid_date
          | some d =>
            .ok (some (ucFirst prop ++ " changed from '" ++
              env.renderAttribute prop old_value dateformat ++ "' to '" ++
              env.renderAttribute prop value dateformat ++ "'."), d)
        else
          .ok (some (ucFirst prop ++ " changed from '" ++
            env.renderAttribute prop old_value dateformat ++ "' to '" ++
            env.renderAttribute prop value dateformat ++ "'."), last_start)

/-- The sentences that the operations `l` of the group `grp` contribute, in
group order, and the value of `last_start` after them. -/
def groupSentences (env : Env) (dateformat : String) (grp : List Operation) :
    List Operation → Int → Except Err (List String × Int)
  | [], last_start => .ok ([], last_start)
  | operation :: rest, last_start =>
    match operationSentence env dateformat grp operation last_start with
    | .error e => .error e
    | .ok (none, last_start) => groupSentences env dateformat grp rest last_start
    | .ok (some s, last_start) =>
      match groupSentences env dateformat grp rest last_start with
      | .error e => .error e
      | .ok (ss, last_start) => .ok (s :: ss, last_start)

/-- The joining in the words of the spec: the sentences with a single line
break between consecutive ones. -/
def joinLines : List String → String
  | [] => ""
  | [s] => s
  | s :: t :: rest => s ++ "\n" ++ joinLines (t :: rest)

/-- The sentences with a line break after each one. -/
def terminateLines : List String → String
  | [] => ""
  | s :: rest => s ++ "\n" ++ terminateLines rest


/-- One group: a priority set, `modified` changed and a project changed, all
at 100. -/
def threeInOneSecond : List Operation :=
  [mkUpdate "priority" (some "H") none 100, mkUpdate "modified" (some "100") (some "50") 100,
    mkUpdate "project" (some "work") (some "home") 100]


/-! ## The assembly of the journal as the claims word it -/

/-- The narratives of the groups `G` in order, each group formatted with the
`last_start` that the groups before it left, and the value of `last_start`
after the last group. -/
def groupNarratives (env : Env) (dateformat : String) (operations : List Operation) :
    List (Nat × Nat) → Int → Except Err (List (Option String) × Int)
  | [], last_start => .ok ([], last_start)
  | (gs, ge) :: rest, last_start =>
    match formatForInfo env operations gs ge dateformat last_start with
    | .error e => .error e
    | .ok (msg, last_start) =>
      match groupNarratives env dateformat operations rest last_start with
      | .error e => .error e
      | .ok (msgs, last_start) => .ok (msg :: msgs, last_start)

/-- The assembly in the words of the spec, to be compared with the rows of
`journalLoop`: one row for each group that has a narrative and none for a
group that has none, in group order, each row with the timestamp of the
anchor of its group. -/
def assemble (operations : List Operation) :
    List (Nat × Nat) → List (Option String) → List JournalRow
  | (gs, _) :: G, some msg :: msgs =>
    { timestamp := anchorTimestamp operations gs, description := msg } ::
      assemble operations G msgs
  | _ :: G, none :: msgs => assemble operations G msgs
  | _, _ => []

/-- A sorted list of operations: a creation, a group whose anchor is an
update of `modified`, a group of an update of `tags` only, a group of one
more update, and an undo point. -/
def sortedHistory : List Operation :=
  [{ kind := Kind.Create, get_property := "", get_value := none, get_old_value := none,
     get_timestamp := 0 },
    mkUpdate "modified" (some "100") (some "50") 100, mkUpdate "priority" (some "H") none 101,
    mkUpdate "tags" (some "a,b") (some "a") 200, mkUpdate "project" (some "home") none 300,
    { kind := Kind.UndoPoint, get_property := "", get_value := none, get_old_value := none,
      get_timestamp := 0 }]


/-- One group: `start` deleted at 1000, `end` set to "950" at 1001. -/
def endOnce : List Operation :=
  [mkUpdate "start" none (some "900") 1000, mkUpdate "end" (some "950") none 1001]

/-- One group: `start` deleted at 1000, `end` set to "950" at 1000 and
changed to "960" at 1001. -/
def endTwice : List Operation :=
  [mkUpdate "start" none (some "900") 1000, mkUpdate "end" (some "950") none 1000,
    mkUpdate "end" (some "960") (some "950") 1001]


/-! ## Properties of the grouping loop -/

/-- What the inner loop computes: it advances over `n` operations, each an
update within one second of the anchor, and stops at the end of the vector
or at an operation that is not such an update. -/
theorem scanGroup_spec (op : Operation) : ∀ (rest : List Operation) (j : Nat),
    ∃ n, scanGroup op rest j = j + n ∧ n ≤ rest.length ∧
      (∀ k, k < n → ∃ x, rest[k]? = some x ∧ x.is_update = true ∧
        x.get_timestamp - op.get_timestamp ≤ 1) ∧
      (∀ y, rest[n]? = some y →
        ¬ (y.is_update = true ∧ y.get_timestamp - op.get_timestamp ≤ 1)) ∧
      rest.filter (fun x => x.is_update) =
        rest.take n ++ (rest.drop n).filter (fun x => x.is_update) := by
  intro rest
  induction rest with
  | nil =>
    intro j
    exact ⟨0, by simp [scanGroup]⟩
  | cons op2 rest ih =>
    intro j
    by_cases hc : op2.is_update = true ∧ op2.get_timestamp - op.get_timestamp ≤ 1
    · obtain ⟨n, h1, h2, h3, h4, h5⟩ := ih (j + 1)
      refine ⟨n + 1, ?_, ?_, ?_, ?_, ?_⟩
      · have : ¬ (1 < op2.get_timestamp - op.get_timestamp) := by omega
        simp [scanGroup, hc.1, this, h1]
        omega
      · simpa using h2
      · intro k hk
        cases k with
        | zero => exact ⟨op2, by simp, hc.1, hc.2⟩
        | succ k => simpa using h3 k (by omega)
      · intro y hy
        exact h4 y (by simpa using hy)
      · simp [List.filter_cons, hc.1, h5]
    · refine ⟨0, ?_, ?_, ?_, ?_, ?_⟩
      · have : op2.is_update = false ∨ 1 < op2.get_timestamp - op.get_timestamp := by
          by_cases hu : op2.is_update = true
          · right
            by_contra hlt
            exact hc ⟨hu, by omega⟩
          · left
            simpa using hu
        rcases this with h | h <;> simp [scanGroup, h]
      · simp
      · intro k hk
        omega
      · intro y hy
        simp at hy
        subst hy
        exact hc
      · simp

/-- The group that the loop forms at an update `op` at index `i`. -/
theorem isWindow_scanGroup (operations : List Operation) (i : Nat) (op : Operation)
    (hop : operations[i]? = some op) (hu : op.is_update = true) :
    IsWindow operations i (scanGroup op (operations.drop (i + 1)) (i + 1)) := by
  obtain ⟨n, h1, h2, h3, h4, -⟩ := scanGroup_spec op (operations.drop (i + 1)) (i + 1)
  have hi : i < operations.length := by
    rcases List.getElem?_eq_some.1 hop with ⟨h, -⟩
    exact h
  simp only [List.length_drop] at h2
  refine ⟨op, hop, hu, by omega, by omega, ?_, ?_⟩
  · intro j hj1 hj2
    obtain ⟨x, hx, hxu, hxt⟩ := h3 (j - (i + 1)) (by omega)
    refine ⟨x, ?_, hxu, hxt⟩
    rw [List.getElem?_drop] at hx
    have : i + 1 + (j - (i + 1)) = j := by omega
    rwa [this] at hx
  · intro y hy
    apply h4 y
    rw [List.getElem?_drop]
    have : i + 1 + n = scanGroup op (operations.drop (i + 1)) (i + 1) := by omega
    rw [this]
    exact hy

/-- Every pair that the outer loop makes is a window, at or after the index
where the loop started. -/
theorem groupLoop_window (operations : List Operation) :
    ∀ (fuel i gs ge : Nat), (gs, ge) ∈ groupLoop operations fuel i →
      i ≤ gs ∧ IsWindow operations gs ge := by
  intro fuel
  induction fuel with
  | zero =>
    intro i gs ge h
    simp [groupLoop] at h
  | succ fuel ih =>
    intro i gs ge h
    rw [groupLoop] at h
    cases hop : operations[i]? with
    | none => simp [hop] at h
    | some op =>
      simp only [hop] at h
      by_cases hu : op.is_update = true
      · simp only [hu, Bool.not_true, Bool.false_eq_true, if_false, List.mem_cons] at h
        rcases h with h | h
        · cases h
          exact ⟨le_refl _, isWindow_scanGroup operations i op hop hu⟩
        · obtain ⟨h1, h2⟩ := ih _ gs ge h
          obtain ⟨n, hn, -⟩ := scanGroup_spec op (operations.drop (i + 1)) (i + 1)
          exact ⟨by omega, h2⟩
      · have hu' : op.is_update = false := by simpa using hu
        simp only [hu', Bool.not_false, if_true] at h
        obtain ⟨h1, h2⟩ := ih _ gs ge h
        exact ⟨by omega, h2⟩

/-- Every group of the list is a window. -/
theorem group_window_aux (operations : List Operation) (gs ge : Nat)
    (h : (gs, ge) ∈ groups operations) : IsWindow operations gs ge :=
  (groupLoop_window operations _ _ gs ge h).2

/-- The slice of a group that the loop forms at index `i` is the anchor
followed by the members, and the updates from `i` on are that slice
followed by the updates from `group_end` on. -/
theorem slice_scanGroup (operations : List Operation) (i : Nat) (op : Operation)
    (hop : operations[i]? = some op) (hu : op.is_update = true) :
    (operations.drop i).filter (fun x => x.is_update) =
      slice operations i (scanGroup op (operations.drop (i + 1)) (i + 1)) ++
        (operations.drop (scanGroup op (operations.drop (i + 1)) (i + 1))).filter
          (fun x => x.is_update) := by
  obtain ⟨n, h1, -, -, -, h5⟩ := scanGroup_spec op (operations.drop (i + 1)) (i + 1)
  obtain ⟨hi, hget⟩ := List.getElem?_eq_some.1 hop
  have hd : operations.drop i = op :: operations.drop (i + 1) := by
    rw [List.drop_eq_getElem_cons hi, hget]
  have hlen : scanGroup op (operations.drop (i + 1)) (i + 1) - i = n + 1 := by omega
  rw [slice, hlen, hd, List.filter_cons, if_pos hu, h5, List.take_succ_cons, List.drop_drop, h1]
  simp

/-- The pairs of the outer loop, given fuel for the remaining operations:
they are in increasing order and disjoint, every update from `i` on lies in
one of them, and their slices in order are the updates from `i` on. -/
theorem groupLoop_partition (operations : List Operation) :
    ∀ (fuel i : Nat), operations.length - i ≤ fuel →
      (groupLoop operations fuel i).Pairwise (fun g h => g.2 ≤ h.1) ∧
      (∀ j op, i ≤ j → operations[j]? = some op → op.is_update = true →
        ∃ g ∈ groupLoop operations fuel i, g.1 ≤ j ∧ j < g.2) ∧
      (groupLoop operations fuel i).flatMap (fun g => slice operations g.1 g.2) =
        (operations.drop i).filter (fun x => x.is_update) := by
  intro fuel
  induction fuel with
  | zero =>
    intro i hf
    have hlen : operations.length ≤ i := by omega
    refine ⟨by simp [groupLoop], ?_, ?_⟩
    · intro j op hij hj
      obtain ⟨hj', -⟩ := List.getElem?_eq_some.1 hj
      omega
    · simp [groupLoop, List.drop_eq_nil_of_le hlen]
  | succ fuel ih =>
    intro i hf
    rw [groupLoop]
    cases hop : operations[i]? with
    | none =>
      have hlen : operations.length ≤ i := by
        by_contra hc
        rw [List.getElem?_eq_getElem (by omega)] at hop
        cases hop
      refine ⟨by simp, ?_, ?_⟩
      · intro j op hij hj
        obtain ⟨hj', -⟩ := List.getElem?_eq_some.1 hj
        omega
      · simp [List.drop_eq_nil_of_le hlen]
    | some op =>
      obtain ⟨hi, hget⟩ := List.getElem?_eq_some.1 hop
      by_cases hu : op.is_update = true
      · simp only [hu, Bool.not_true, Bool.false_eq_true, if_false]
        obtain ⟨n, hn, -⟩ := scanGroup_spec op (operations.drop (i + 1)) (i + 1)
        obtain ⟨ih1, ih2, ih3⟩ :=
          ih (scanGroup op (operations.drop (i + 1)) (i + 1)) (by omega)
        refine ⟨?_, ?_, ?_⟩
        · rw [List.pairwise_cons]
          refine ⟨?_, ih1⟩
          rintro ⟨gs, ge⟩ hg
          exact (groupLoop_window operations _ _ gs ge hg).1
        · intro j opj hij hj huj
          by_cases hlt : j < scanGroup op (operations.drop (i + 1)) (i + 1)
          · exact ⟨_, List.mem_cons_self _ _, hij, hlt⟩
          · obtain ⟨g, hg, hg'⟩ := ih2 j opj (by omega) hj huj
            exact ⟨g, List.mem_cons_of_mem _ hg, hg'⟩
        · rw [List.flatMap_cons, ih3]
          exact (slice_scanGroup operations i op hop hu).symm
      · have hu' : op.is_update = false := by simpa using hu
        simp only [hu', Bool.not_false, if_true]
        obtain ⟨ih1, ih2, ih3⟩ := ih (i + 1) (by omega)
        refine ⟨ih1, ?_, ?_⟩
        · intro j opj hij hj huj
          have hne : j ≠ i := by
            rintro rfl
            rw [hop] at hj
            cases hj
            exact hu huj
          exact ih2 j opj (by omega) hj huj
        · rw [ih3, List.drop_eq_getElem_cons hi, hget, List.filter_cons]
          simp [hu']

/-- The inner loop ends past the index where it starts or at it. -/
theorem le_scanGroup (op : Operation) (rest : List Operation) (j : Nat) :
    j ≤ scanGroup op rest j ∧ scanGroup op rest j ≤ j + rest.length := by
  obtain ⟨n, h1, h2, -⟩ := scanGroup_spec op rest j
  omega

/-- The pairs of the outer loop do not depend on the fuel, once there is
fuel for the remaining operations. -/
theorem groupLoop_fuel (operations : List Operation) :
    ∀ (f1 f2 i : Nat), operations.length - i ≤ f1 → operations.length - i ≤ f2 →
      groupLoop operations f1 i = groupLoop operations f2 i := by
  intro f1
  induction f1 with
  | zero =>
    intro f2 i h1 _
    have hlen : operations.length ≤ i := by omega
    have hnone : operations[i]? = none := List.getElem?_eq_none hlen
    cases f2 with
    | zero => rfl
    | succ f2 => simp [groupLoop, hnone]
  | succ f1 ih =>
    intro f2 i h1 h2
    cases f2 with
    | zero =>
      have hlen : operations.length ≤ i := by omega
      have hnone : operations[i]? = none := List.getElem?_eq_none hlen
      simp [groupLoop, hnone]
    | succ f2 =>
      rw [groupLoop, groupLoop]
      cases hop : operations[i]? with
      | none => rfl
      | some op =>
        obtain ⟨hi, -⟩ := List.getElem?_eq_some.1 hop
        have hle := (le_scanGroup op (operations.drop (i + 1)) (i + 1)).1
        simp only []
        rw [ih f2 (i + 1) (by omega) (by omega),
          ih f2 (scanGroup op (operations.drop (i + 1)) (i + 1)) (by omega) (by omega)]

/-- The journal loop is the replay of the groups of the grouping loop: with
fuel for the remaining operations it does not run out, and each group is
formatted with the `last_start` left by the groups before it. -/
theorem journalLoop_eq_replay (env : Env) (dateformat : String) (operations : List Operation) :
    ∀ (fuel i : Nat) (ls : Int) (rows : List JournalRow), operations.length - i < fuel →
      journalLoop env dateformat operations fuel i ls rows =
        replayGroups env dateformat operations (groupLoop operations fuel i) ls rows := by
  intro fuel
  induction fuel with
  | zero => intro i ls rows h; omega
  | succ fuel ih =>
    intro i ls rows h
    rw [journalLoop, groupLoop]
    cases hop : operations[i]? with
    | none => rfl
    | some op =>
      obtain ⟨hi, -⟩ := List.getElem?_eq_some.1 hop
      have hle := (le_scanGroup op (operations.drop (i + 1)) (i + 1)).1
      by_cases hu : op.is_update = true
      · simp only [hu, Bool.not_true, Bool.false_eq_true, if_false, replayGroups]
        cases hf : formatForInfo env operations i
            (scanGroup op (operations.drop (i + 1)) (i + 1)) dateformat ls with
        | error e => rfl
        | ok r =>
          obtain ⟨msg, ls2⟩ := r
          cases msg with
          | none => exact ih _ _ _ (by omega)
          | some m =>
            simp only [anchorTimestamp, hop]
            exact ih _ _ _ (by omega)
      · have hu' : op.is_update = false := by simpa using hu
        simp only [hu', Bool.not_false, if_true]
        exact ih _ _ _ (by omega)

/-- The journal of a task is the replay of the groups of its operations,
started with `last_start = 0`. -/
theorem journal_eq_replay (env : Env) (dateformat : String) (task : Task)
    (operations : List Operation) :
    journal env dateformat task operations =
      match replayGroups env dateformat operations (groups operations) 0 [] with
      | .error e => .error e
      | .ok (rows, _) => .ok rows := by
  rw [journal, journalLoop_eq_replay env dateformat operations _ 0 0 [] (by omega), groups,
    groupLoop_fuel operations (operations.length + 1) operations.length 0 (by omega) (by omega)]

/-! ## Properties of `formatForInfo` -/

/-- The loop over a concatenation runs the first part, then the second. -/
theorem formatLoop_append (env : Env) (dateformat : String) (grp : List Operation) :
    ∀ (pre post : List Operation) (out : String) (last_start : Int),
      formatLoop env dateformat grp (pre ++ post) out last_start =
        match formatLoop env dateformat grp pre out last_start with
        | .error e => .error e
        | .ok (out, last_start) => formatLoop env dateformat grp post out last_start := by
  intro pre
  induction pre with
  | nil => intro post out last_start; simp [formatLoop]
  | cons op pre ih =>
    intro post out last_start
    simp only [List.cons_append, formatLoop]
    cases h : formatOperation env dateformat grp op out last_start with
    | error e => simp
    | ok r => simp [ih]

/-- A stream that ends with a line break is a narrative. -/
theorem finish_newline (s : String) (ls : Int) :
    finish (.ok (s ++ "\n", ls)) = .ok (some (s ++ "\n"), ls) := by
  have h1 : "\n".length = 1 := by decide
  have h : (s ++ "\n").length ≠ 0 := by
    rw [String.length_append]
    omega
  have hb : ((s ++ "\n").length == 0) = false := by
    rw [beq_eq_false_iff_ne]
    exact h
  simp only [finish, hb, Bool.false_eq_true, if_false]

/-- The call of `formatForInfo` on a group, split at one of its operations:
when the operations before `op` leave the stream `out` and the value `ls`,
and `op` then leaves `out2` and `ls2`, the call is the rest of the loop from
there. -/
theorem formatForInfo_split (env : Env) (dateformat : String) (operations : List Operation)
    (gs ge : Nat) (pre post : List Operation) (op : Operation) (ls0 ls ls2 : Int)
    (out out2 : String)
    (hgrp : slice operations gs ge = pre ++ op :: post)
    (hpre : formatLoop env dateformat (slice operations gs ge) pre "" ls0 = .ok (out, ls))
    (hop : formatOperation env dateformat (slice operations gs ge) op out ls = .ok (out2, ls2)) :
    formatForInfo env operations gs ge dateformat ls0 =
      finish (formatLoop env dateformat (slice operations gs ge) post out2 ls2) := by
  have h : formatLoop env dateformat (slice operations gs ge) (slice operations gs ge) "" ls0 =
      formatLoop env dateformat (slice operations gs ge) (pre ++ op :: post) "" ls0 :=
    congrArg (fun l => formatLoop env dateformat (slice operations gs ge) l "" ls0) hgrp
  rw [formatForInfo, h, formatLoop_append, hpre]
  simp only [formatLoop, hop]

/-- The call of `formatForInfo` fails when one operation of the group fails
after the operations before it went through. -/
theorem formatForInfo_error (env : Env) (dateformat : String) (operations : List Operation)
    (gs ge : Nat) (pre post : List Operation) (op : Operation) (ls0 ls : Int)
    (out : String) (e : Err)
    (hgrp : slice operations gs ge = pre ++ op :: post)
    (hpre : formatLoop env dateformat (slice operations gs ge) pre "" ls0 = .ok (out, ls))
    (hop : formatOperation env dateformat (slice operations gs ge) op out ls = .error e) :
    formatForInfo env operations gs ge dateformat ls0 = .error e := by
  have h : formatLoop env dateformat (slice operations gs ge) (slice operations gs ge) "" ls0 =
      formatLoop env dateformat (slice operations gs ge) (pre ++ op :: post) "" ls0 :=
    congrArg (fun l => formatLoop env dateformat (slice operations gs ge) l "" ls0) hgrp
  rw [formatForInfo, h, formatLoop_append, hpre]
  simp only [formatLoop, hop, finish]

/-- The stop time over a concatenation. -/
theorem stopTime_append (env : Env) : ∀ (a b : List Operation) (t : Int),
    stopTime env (a ++ b) t =
      match stopTime env a t with
      | .error e => .error e
      | .ok t1 => stopTime env b t1 := by
  intro a
  induction a with
  | nil => intro b t; simp [stopTime]
  | cons op a ih =>
    intro b t
    simp only [List.cons_append, stopTime]
    split
    · rfl
    · split
      · cases op.get_value with
        | none => rfl
        | some v =>
          cases hd : env.parseDatetime v with
          | none => simp only [hd]; exact ih b _
          | some d => simp only [hd]; exact ih b _
      · exact ih b t

/-- Updates, none of them of `end`, leave the stop time as it is. -/
theorem stopTime_no_end (env : Env) : ∀ (l : List Operation) (t : Int),
    (∀ x ∈ l, x.is_update = true) → (∀ x ∈ l, x.get_property ≠ "end") →
    stopTime env l t = .ok t := by
  intro l
  induction l with
  | nil => intro t _ _; rfl
  | cons op l ih =>
    intro t hu he
    have h1 := hu op (List.mem_cons_self _ _)
    have h2 := he op (List.mem_cons_self _ _)
    simp only [stopTime, h1, Bool.not_true, Bool.false_eq_true, if_false, beq_iff_eq, h2]
    exact ih t (fun x hx => hu x (List.mem_cons_of_mem _ hx))
      (fun x hx => he x (List.mem_cons_of_mem _ hx))

/-- Updates whose `end` updates all carry a value give some stop time. -/
theorem stopTime_ok (env : Env) : ∀ (l : List Operation) (t : Int),
    (∀ x ∈ l, x.is_update = true) →
    (∀ x ∈ l, x.get_property = "end" → x.get_value ≠ none) →
    ∃ t1, stopTime env l t = .ok t1 := by
  intro l
  induction l with
  | nil => intro t _ _; exact ⟨t, rfl⟩
  | cons op l ih =>
    intro t hu he
    have h1 := hu op (List.mem_cons_self _ _)
    have h2 := he op (List.mem_cons_self _ _)
    have hu' : ∀ x ∈ l, x.is_update = true := fun x hx => hu x (List.mem_cons_of_mem _ hx)
    have he' : ∀ x ∈ l, x.get_property = "end" → x.get_value ≠ none :=
      fun x hx => he x (List.mem_cons_of_mem _ hx)
    simp only [stopTime, h1, Bool.not_true, Bool.false_eq_true, if_false, beq_iff_eq]
    by_cases hp : op.get_property = "end"
    · simp only [hp, if_true]
      cases hv : op.get_value with
      | none => exact absurd hv (h2 hp)
      | some v =>
        cases hd : env.parseDatetime v with
        | none => simp only [hd]; exact ih _ hu' he'
        | some d => simp only [hd]; exact ih _ hu' he'
    · simp only [hp, if_false]
      exact ih _ hu' he'

/-- The stop time of a group whose last update of `end` is `e`, with the new
value `v`: the date parsed from `v`, or the timestamp of `e`. -/
theorem stopTime_last_end (env : Env) (pre post : List Operation) (e : Operation) (v : String)
    (t : Int) (hu : ∀ x ∈ pre ++ e :: post, x.is_update = true)
    (he : e.get_property = "end") (hv : e.get_value = some v)
    (hpre : ∀ x ∈ pre, x.get_property = "end" → x.get_value ≠ none)
    (hpost : ∀ x ∈ post, x.get_property ≠ "end") :
    stopTime env (pre ++ e :: post) t =
      .ok (match env.parseDatetime v with
        | some d => d
        | none => e.get_timestamp) := by
  obtain ⟨t1, h1⟩ := stopTime_ok env pre t
    (fun x hx => hu x (List.mem_append_left _ hx)) hpre
  have hue : e.is_update = true := hu e (by simp)
  have hup : ∀ x ∈ post, x.is_update = true := fun x hx => hu x (by simp [hx])
  rw [stopTime_append, h1]
  simp only [stopTime, hue, Bool.not_true, Bool.false_eq_true, if_false, he, beq_self_eq_true,
    if_true, hv]
  cases env.parseDatetime v with
  | none => exact stopTime_no_end env post _ hup hpost
  | some d => exact stopTime_no_end env post _ hup hpost

/-- The sentence of a deletion of `start`, given the stop time of the
group. -/
theorem formatOperation_start_deleted (env : Env) (dateformat : String) (grp : List Operation)
    (op : Operation) (old : String) (out : String) (ls stopped : Int)
    (hs : env.StartScalar) (hu : op.is_update = true) (hp : op.get_property = "start")
    (hv : op.get_value = none) (ho : op.get_old_value = some old)
    (hstop : stopTime env grp op.get_timestamp = .ok stopped) :
    formatOperation env dateformat grp op out ls =
      .ok (out ++ "Start deleted (duration: " ++ env.formatDuration (stopped - ls) ++ ")." ++
        "\n", ls) := by
  obtain ⟨ha, ht, hd⟩ := hs
  have hc : ucFirst "start" = "Start" := by decide
  simp [formatOperation, handleDeletion, handleAddition, handleChange, hu, hv, ho, hp, ha, ht,
    hd, hstop, hc, String.append_assoc]

theorem formatOperation_last_start (env : Env) (dateformat : String) (grp : List Operation)
    (op : Operation) (out out2 : String) (ls ls2 : Int) (hs : env.StartScalar)
    (h : formatOperation env dateformat grp op out ls = .ok (out2, ls2)) :
    ls2 = startStep env ls op := by
  obtain ⟨ha, ht, hd⟩ := hs
  unfold formatOperation at h
  by_cases hu : op.is_update = true
  swap
  · have hu' : op.is_update = false := by simpa using hu
    simp [hu'] at h
  simp only [hu, Bool.not_true, Bool.false_eq_true, if_false] at h
  by_cases hp : op.get_property = "start"
  · have e1 : ("start" == "modified") = false := by decide
    have e2 : ("start" == "depends") = false := by decide
    have e3 : ("start" == "tags") = false := by decide
    simp only [hp, e1, e2, e3, Bool.or_false, Bool.false_eq_true, if_false] at h
    cases hv : op.get_value with
    | none =>
      cases ho : op.get_old_value with
      | none =>
        simp [handleDeletion, handleAddition, handleChange, hv, ho] at h
        simp [startStep, hv, h.2]
      | some old =>
        simp only [handleDeletion, handleAddition, handleChange, hv, ho, hp, ha, ht, hd,
          Bool.false_eq_true, if_false, beq_self_eq_true, if_true] at h
        cases hst : stopTime env grp op.get_timestamp with
        | error e => simp [hst] at h
        | ok t =>
          simp [hst] at h
          simp [startStep, hv, h.2]
    | some v =>
      cases ho : op.get_old_value with
      | none =>
        simp only [handleDeletion, handleAddition, handleChange, hv, ho, hp, ha, ht, hd,
          Bool.false_eq_true, if_false, beq_self_eq_true, if_true] at h
        simp at h
        simp [startStep, hv, hu, hp, ← h.2]
      | some old =>
        simp only [handleDeletion, handleAddition, handleChange, hv, ho, hp, ha, ht, hd,
          Bool.false_eq_true, if_false, beq_self_eq_true, if_true, Bool.or_false] at h
        cases hpd : env.parseDatetime v with
        | none => simp [hpd] at h
        | some d =>
          simp [hpd] at h
          simp [startStep, hv, hu, hp, hpd, h.2]
  · have hss : startStep env ls op = ls := by
      simp [startStep, hp]
    rw [hss]
    split at h
    · simp at h
      exact h.2.symm
    · cases hv : op.get_value with
      | none =>
        cases ho : op.get_old_value with
        | none =>
          simp [handleDeletion, handleAddition, handleChange, hv, ho] at h
          exact h.2.symm
        | some old =>
          simp only [handleDeletion, handleAddition, handleChange, hv, ho, hp,
            Bool.false_eq_true, if_false, beq_iff_eq] at h
          split_ifs at h <;> simp at h <;> exact h.2.symm
      | some v =>
        cases ho : op.get_old_value with
        | none =>
          simp only [handleDeletion, handleAddition, handleChange, hv, ho, hp,
            Bool.false_eq_true, if_false, beq_iff_eq] at h
          split_ifs at h <;> simp at h <;> exact h.2.symm
        | some old =>
          simp only [handleDeletion, handleAddition, handleChange, hv, ho, hp,
            Bool.false_eq_true, if_false, beq_iff_eq] at h
          split_ifs at h <;> simp at h <;> exact h.2.symm

/-- The value of `last_start` after the loop over `l`. -/
theorem formatLoop_last_start (env : Env) (dateformat : String) (grp : List Operation)
    (hs : env.StartScalar) : ∀ (l : List Operation) (out out2 : String) (ls ls2 : Int),
    formatLoop env dateformat grp l out ls = .ok (out2, ls2) →
    ls2 = lastStartAfter env ls l := by
  intro l
  induction l with
  | nil =>
    intro out out2 ls ls2 h
    simp only [formatLoop, Except.ok.injEq, Prod.mk.injEq] at h
    simp [lastStartAfter, h.2]
  | cons op l ih =>
    intro out out2 ls ls2 h
    simp only [formatLoop] at h
    cases hop : formatOperation env dateformat grp op out ls with
    | error e => simp [hop] at h
    | ok r =>
      obtain ⟨o1, l1⟩ := r
      simp only [hop] at h
      have h1 := formatOperation_last_start env dateformat grp op out o1 ls l1 hs hop
      have h2 := ih o1 out2 l1 ls2 h
      simp only [lastStartAfter, List.foldl_cons] at h2 ⊢
      rw [← h1]
      exact h2

/-- The value of `last_start` that a call of `formatForInfo` leaves. -/
theorem formatForInfo_last_start (env : Env) (dateformat : String)
    (operations : List Operation) (gs ge : Nat) (ls ls2 : Int) (msg : Option String)
    (hs : env.StartScalar)
    (h : formatForInfo env operations gs ge dateformat ls = .ok (msg, ls2)) :
    ls2 = lastStartAfter env ls (slice operations gs ge) := by
  unfold formatForInfo finish at h
  cases hl : formatLoop env dateformat (slice operations gs ge) (slice operations gs ge) "" ls with
  | error e => simp [hl] at h
  | ok r =>
    obtain ⟨o1, l1⟩ := r
    simp only [hl] at h
    have h1 := formatLoop_last_start env dateformat _ hs _ _ _ _ _ hl
    split_ifs at h <;> simp only [Except.ok.injEq, Prod.mk.injEq] at h <;> rw [← h.2] <;> exact h1

/-- The value of `last_start` that the replay of the groups `G` leaves. -/
theorem replayGroups_last_start (env : Env) (dateformat : String)
    (operations : List Operation) (hs : env.StartScalar) :
    ∀ (G : List (Nat × Nat)) (ls ls2 : Int) (rows rows2 : List JournalRow),
    replayGroups env dateformat operations G ls rows = .ok (rows2, ls2) →
    ls2 = lastStartAfter env ls (G.flatMap (fun g => slice operations g.1 g.2)) := by
  intro G
  induction G with
  | nil =>
    intro ls ls2 rows rows2 h
    simp only [replayGroups, Except.ok.injEq, Prod.mk.injEq] at h
    simp [lastStartAfter, h.2]
  | cons g G ih =>
    intro ls ls2 rows rows2 h
    obtain ⟨gs, ge⟩ := g
    simp only [replayGroups] at h
    cases hf : formatForInfo env operations gs ge dateformat ls with
    | error e => simp [hf] at h
    | ok r =>
      obtain ⟨msg, l1⟩ := r
      have h1 := formatForInfo_last_start env dateformat operations gs ge ls l1 msg hs hf
      simp only [List.flatMap_cons, lastStartAfter, List.foldl_append] at ih ⊢
      simp only [lastStartAfter] at h1
      rw [← h1]
      cases msg with
      | none =>
        simp only [hf] at h
        exact ih _ _ _ _ h
      | some m =>
        simp only [hf] at h
        exact ih _ _ _ _ h

/-- Operations that are not updates do not count for `last_start`. -/
theorem lastStartAfter_filter (env : Env) : ∀ (l : List Operation) (seed : Int),
    lastStartAfter env seed (l.filter (fun x => x.is_update)) = lastStartAfter env seed l := by
  intro l
  induction l with
  | nil => intro seed; rfl
  | cons op l ih =>
    intro seed
    by_cases hu : op.is_update = true
    · simp only [List.filter_cons, hu, if_true, lastStartAfter, List.foldl_cons]
      exact ih _
    · have hu' : op.is_update = false := by simpa using hu
      simp only [List.filter_cons, hu', Bool.false_eq_true, if_false, lastStartAfter,
        List.foldl_cons]
      have : startStep env seed op = seed := by simp [startStep, hu']
      rw [this]
      exact ih _

/-- The pairs from a given pair on are the pairs of the loop started at the
start of that pair. -/
theorem groupLoop_suffix (operations : List Operation) :
    ∀ (fuel i : Nat) (gpre gpost : List (Nat × Nat)) (gs ge : Nat),
      operations.length - i ≤ fuel →
      groupLoop operations fuel i = gpre ++ (gs, ge) :: gpost →
      ∃ fuel2, operations.length - gs ≤ fuel2 ∧
        (gs, ge) :: gpost = groupLoop operations fuel2 gs := by
  intro fuel
  induction fuel with
  | zero =>
    intro i gpre gpost gs ge _ h
    simp [groupLoop] at h
  | succ fuel ih =>
    intro i gpre gpost gs ge hf h
    have h0 := h
    rw [groupLoop] at h
    cases hop : operations[i]? with
    | none => simp [hop] at h
    | some op =>
      obtain ⟨hi, -⟩ := List.getElem?_eq_some.1 hop
      have hle := (le_scanGroup op (operations.drop (i + 1)) (i + 1)).1
      simp only [hop] at h
      by_cases hu : op.is_update = true
      · simp only [hu, Bool.not_true, Bool.false_eq_true, if_false] at h
        cases gpre with
        | nil =>
          simp only [List.nil_append, List.cons.injEq, Prod.mk.injEq] at h
          obtain ⟨⟨h1, -⟩, -⟩ := h
          subst h1
          exact ⟨fuel + 1, hf, by simpa using h0.symm⟩
        | cons g gpre =>
          simp only [List.cons_append, List.cons.injEq] at h
          exact ih _ gpre gpost gs ge (by omega) h.2
      · have hu' : op.is_update = false := by simpa using hu
        simp only [hu', Bool.not_false, if_true] at h
        exact ih _ gpre gpost gs ge (by omega) h

/-- After a group the scan resumes at its end: the groups that follow the
group `[gs, ge)` are those of the loop started at index `ge`. -/
theorem groups_resume (operations : List Operation) (gpre gpost : List (Nat × Nat))
    (gs ge : Nat) (h : groups operations = gpre ++ (gs, ge) :: gpost) :
    gpost = groupLoop operations operations.length ge := by
  obtain ⟨fuel2, hf2, hsuf⟩ := groupLoop_suffix operations _ 0 gpre gpost gs ge (by omega) h
  cases fuel2 with
  | zero => simp [groupLoop] at hsuf
  | succ f =>
    rw [groupLoop] at hsuf
    cases hop : operations[gs]? with
    | none => simp [hop] at hsuf
    | some op =>
      obtain ⟨hi, -⟩ := List.getElem?_eq_some.1 hop
      have hle := (le_scanGroup op (operations.drop (gs + 1)) (gs + 1)).1
      simp only [hop] at hsuf
      by_cases hu : op.is_update = true
      · simp only [hu, Bool.not_true, Bool.false_eq_true, if_false, List.cons.injEq,
          Prod.mk.injEq, true_and] at hsuf
        obtain ⟨h1, h2⟩ := hsuf
        rw [h2, h1]
        exact groupLoop_fuel operations _ _ _ (by omega) (by omega)
      · have hu2 : op.is_update = false := by simpa using hu
        simp only [hu2, Bool.not_false, if_true] at hsuf
        have hmem : (gs, ge) ∈ groupLoop operations f (gs + 1) := by
          rw [← hsuf]
          exact List.mem_cons_self _ _
        have := (groupLoop_window operations _ _ gs ge hmem).1
        omega

/-- The slices of the groups before the group at `gs` are the updates
before index `gs`. -/
theorem groups_before (operations : List Operation) (gpre gpost : List (Nat × Nat))
    (gs ge : Nat) (h : groups operations = gpre ++ (gs, ge) :: gpost) :
    gpre.flatMap (fun g => slice operations g.1 g.2) =
      (operations.take gs).filter (fun x => x.is_update) := by
  obtain ⟨fuel2, hf2, hsuf⟩ := groupLoop_suffix operations _ 0 gpre gpost gs ge (by omega) h
  have hall := (groupLoop_partition operations operations.length 0 (by omega)).2.2
  have hsufp := (groupLoop_partition operations fuel2 gs hf2).2.2
  rw [← hsuf] at hsufp
  change (groups operations).flatMap _ = _ at hall
  rw [h, List.flatMap_append, hsufp, List.drop_zero] at hall
  have hsplit : operations.filter (fun x => x.is_update) =
      (operations.take gs).filter (fun x => x.is_update) ++
        (operations.drop gs).filter (fun x => x.is_update) := by
    rw [← List.filter_append, List.take_append_drop]
  rw [hsplit] at hall
  exact List.append_cancel_right hall

/-- Operations without a start addition or change leave `last_start`. -/
theorem lastStartAfter_no_start (env : Env) : ∀ (l : List Operation) (seed : Int),
    (∀ x ∈ l, x.get_property = "start" → x.get_value = none) →
    lastStartAfter env seed l = seed := by
  intro l
  induction l with
  | nil => intro seed _; rfl
  | cons op l ih =>
    intro seed h
    have h1 := h op (List.mem_cons_self _ _)
    have hstep : startStep env seed op = seed := by
      unfold startStep
      split
      · rename_i hc
        simp only [Bool.and_eq_true, beq_iff_eq] at hc
        rw [h1 hc.2]
      · rfl
    simp only [lastStartAfter, List.foldl_cons, hstep]
    exact ih seed (fun x hx => h x (List.mem_cons_of_mem _ hx))

/-- The replay over a concatenation of groups. -/
theorem replayGroups_append (env : Env) (dateformat : String) (operations : List Operation) :
    ∀ (A B : List (Nat × Nat)) (ls : Int) (rows : List JournalRow),
      replayGroups env dateformat operations (A ++ B) ls rows =
        match replayGroups env dateformat operations A ls rows with
        | .error e => .error e
        | .ok (rows2, ls2) => replayGroups env dateformat operations B ls2 rows2 := by
  intro A
  induction A with
  | nil => intro B ls rows; rfl
  | cons g A ih =>
    intro B ls rows
    obtain ⟨gs, ge⟩ := g
    simp only [List.cons_append, replayGroups]
    cases hf : formatForInfo env operations gs ge dateformat ls with
    | error e => rfl
    | ok r =>
      obtain ⟨msg, l1⟩ := r
      cases msg with
      | none => exact ih B _ _
      | some m => exact ih B _ _

/-- The operations of a group of the list are updates. -/
theorem group_slice_updates (operations : List Operation) (gs ge : Nat)
    (hg : (gs, ge) ∈ groups operations) :
    ∀ x ∈ slice operations gs ge, x.is_update = true := by
  intro x hx
  have hf := (groupLoop_partition operations operations.length 0 (by omega)).2.2
  have hmem : x ∈ (groups operations).flatMap (fun g => slice operations g.1 g.2) :=
    List.mem_flatMap.2 ⟨(gs, ge), hg, hx⟩
  change x ∈ (groupLoop operations operations.length 0).flatMap _ at hmem
  rw [hf] at hmem
  exact (List.mem_filter.1 hmem).2

/-- The value of `last_start` at an operation of a group: the groups before
it and the operations of its group before it are the operations of the list
before it. -/
theorem lastStartAfter_position (env : Env) (operations : List Operation)
    (gpre gpost : List (Nat × Nat)) (gs ge : Nat) (pre post : List Operation) (op : Operation)
    (seed : Int) (hg : groups operations = gpre ++ (gs, ge) :: gpost)
    (hgrp : slice operations gs ge = pre ++ op :: post) :
    lastStartAfter env seed (gpre.flatMap (fun g => slice operations g.1 g.2)) =
      lastStartAfter env seed (operations.take gs) ∧
    lastStartAfter env
      (lastStartAfter env seed (gpre.flatMap (fun g => slice operations g.1 g.2))) pre =
      lastStartAfter env seed (operations.take (gs + pre.length)) := by
  have h1 : lastStartAfter env seed (gpre.flatMap (fun g => slice operations g.1 g.2)) =
      lastStartAfter env seed (operations.take gs) := by
    rw [groups_before operations gpre gpost gs ge hg, lastStartAfter_filter]
  refine ⟨h1, ?_⟩
  have hlen : pre.length ≤ ge - gs := by
    have := congrArg List.length hgrp
    simp only [slice, List.length_take, List.length_append, List.length_cons] at this
    omega
  have hpre : (operations.drop gs).take pre.length = pre := by
    have h2 : ((operations.drop gs).take (ge - gs)).take pre.length = pre := by
      have := hgrp
      unfold slice at this
      rw [this]
      exact List.take_left' rfl
    rw [List.take_take, Nat.min_eq_left hlen] at h2
    exact h2
  rw [h1, List.take_add, hpre]
  simp only [lastStartAfter, List.foldl_append]

/-- The scan for the stop time does not run out of fuel: it has none. -/
theorem stopTime_ne_fuel (env : Env) : ∀ (l : List Operation) (t : Int),
    stopTime env l t ≠ .error Err.fuel := by
  intro l
  induction l with
  | nil => intro t h; cases h
  | cons op l ih =>
    intro t
    simp only [stopTime]
    split
    · intro h; cases h
    · split
      · cases hv : op.get_value with
        | none => intro h; cases h
        | some v =>
          cases hd : env.parseDatetime v with
          | none => simp only [hd]; exact ih _
          | some d => simp only [hd]; exact ih _
      · exact ih t

/-- The deletion block fails only with an error of the source. -/
theorem handleDeletion_ne_fuel (env : Env) (grp : List Operation) (op : Operation)
    (out : String) (ls : Int) : handleDeletion env grp op out ls ≠ .error Err.fuel := by
  intro h
  cases hv : op.get_value with
  | some v => simp [handleDeletion, hv] at h
  | none =>
    cases ho : op.get_old_value with
    | none => simp [handleDeletion, hv, ho] at h
    | some old =>
      simp only [handleDeletion, hv, ho] at h
      split_ifs at h
      cases hst : stopTime env grp op.get_timestamp with
      | error e =>
        rw [hst] at h
        simp only [Except.error.injEq] at h
        exact stopTime_ne_fuel env grp op.get_timestamp (by rw [hst, h])
      | ok t =>
        rw [hst] at h
        cases h

/-- The addition block does not fail. -/
theorem handleAddition_ok (env : Env) (dateformat : String) (op : Operation)
    (out : String) (ls : Int) : ∃ r, handleAddition env dateformat op out ls = .ok r := by
  unfold handleAddition
  split
  · dsimp only
    split_ifs <;> exact ⟨_, rfl⟩
  · exact ⟨_, rfl⟩

/-- The change block fails only with the error of a date. -/
theorem handleChange_ne_fuel (env : Env) (dateformat : String) (op : Operation)
    (out : String) (ls : Int) : handleChange env dateformat op out ls ≠ .error Err.fuel := by
  intro h
  cases hv : op.get_value with
  | none => simp [handleChange, hv] at h
  | some v =>
    cases ho : op.get_old_value with
    | none => simp [handleChange, hv, ho] at h
    | some old =>
      simp only [handleChange, hv, ho] at h
      split_ifs at h
      cases hd : env.parseDatetime v with
      | none =>
        rw [hd] at h
        cases h
      | some d =>
        rw [hd] at h
        cases h

/-- The body of the loop of `formatForInfo` fails only with an error of the
source. -/
theorem formatOperation_ne_fuel (env : Env) (dateformat : String) (grp : List Operation)
    (op : Operation) (out : String) (ls : Int) :
    formatOperation env dateformat grp op out ls ≠ .error Err.fuel := by
  intro h
  unfold formatOperation at h
  split_ifs at h
  · cases h
  · dsimp only at h
    split_ifs at h
    cases hdel : handleDeletion env grp op out ls with
    | error e =>
      rw [hdel] at h
      simp only [Except.error.injEq] at h
      exact handleDeletion_ne_fuel env grp op out ls (by rw [hdel, h])
    | ok r =>
      obtain ⟨o1, l1⟩ := r
      rw [hdel] at h
      obtain ⟨r2, hadd⟩ := handleAddition_ok env dateformat op o1 l1
      obtain ⟨o2, l2⟩ := r2
      simp only [hadd] at h
      exact handleChange_ne_fuel env dateformat op o2 l2 h

/-- The loop of `formatForInfo` fails only with an error of the source. -/
theorem formatLoop_ne_fuel (env : Env) (dateformat : String) (grp : List Operation) :
    ∀ (l : List Operation) (out : String) (ls : Int),
      formatLoop env dateformat grp l out ls ≠ .error Err.fuel := by
  intro l
  induction l with
  | nil => intro out ls h; cases h
  | cons op l ih =>
    intro out ls
    simp only [formatLoop]
    cases hop : formatOperation env dateformat grp op out ls with
    | error e =>
      intro h
      simp only [Except.error.injEq] at h
      exact formatOperation_ne_fuel env dateformat grp op out ls (by rw [hop, h])
    | ok r => exact ih _ _

/-- The function `formatForInfo` fails only with an error of the source. -/
theorem formatForInfo_ne_fuel (env : Env) (dateformat : String) (operations : List Operation)
    (gs ge : Nat) (ls : Int) :
    formatForInfo env operations gs ge dateformat ls ≠ .error Err.fuel := by
  unfold formatForInfo finish
  cases hl : formatLoop env dateformat (slice operations gs ge) (slice operations gs ge) "" ls with
  | error e =>
    intro h
    simp only [Except.error.injEq] at h
    exact formatLoop_ne_fuel env dateformat _ _ _ _ (by rw [hl, h])
  | ok r =>
    obtain ⟨o, l⟩ := r
    simp only
    split_ifs <;> intro h <;> cases h

/-- The replay of the groups fails only with an error of the source. -/
theorem replayGroups_ne_fuel (env : Env) (dateformat : String) (operations : List Operation) :
    ∀ (G : List (Nat × Nat)) (ls : Int) (rows : List JournalRow),
      replayGroups env dateformat operations G ls rows ≠ .error Err.fuel := by
  intro G
  induction G with
  | nil => intro ls rows h; cases h
  | cons g G ih =>
    intro ls rows
    obtain ⟨gs, ge⟩ := g
    simp only [replayGroups]
    cases hf : formatForInfo env operations gs ge dateformat ls with
    | error e =>
      intro h
      simp only [Except.error.injEq] at h
      exact formatForInfo_ne_fuel env dateformat operations gs ge ls (by rw [hf, h])
    | ok r =>
      obtain ⟨msg, l1⟩ := r
      cases msg with
      | none => exact ih _ _
      | some m => exact ih _ _

/-- The journal loop, started with one unit of fuel more than there are
operations, never runs out of fuel: the journal either is a list of rows
or fails with an error of the source. -/
theorem journalLoop_fuel (env : Env) (dateformat : String) (task : Task)
    (operations : List Operation) :
    journal env dateformat task operations ≠ .error Err.fuel := by
  rw [journal_eq_replay]
  cases hr : replayGroups env dateformat operations (groups operations) 0 [] with
  | error e =>
    intro h
    simp only [Except.error.injEq] at h
    exact replayGroups_ne_fuel env dateformat operations _ _ _ (by rw [hr, h])
  | ok r =>
    intro h
    cases h

/-! ## The claim about the ordering -/

/-- The order `operator<` is the strict part of a total preorder, as
`std::sort` requires of it. -/
theorem not_lt_total_trans :
    (∀ a b c : Operation, (!b.lt a) = true → (!c.lt b) = true → (!c.lt a) = true) ∧
    (∀ a b : Operation, (!b.lt a || !a.lt b) = true) := by
  constructor
  · intro a b c h1 h2
    simp only [Operation.lt, Bool.not_eq_true', Bool.or_eq_false_iff, Bool.and_eq_false_imp,
      decide_eq_false_iff_not, decide_eq_true_eq] at *
    constructor
    · omega
    · intro h
      have := h1.2
      have := h2.2
      omega
  · intro a b
    simp only [Operation.lt, Bool.or_eq_true, Bool.not_eq_true', Bool.or_eq_false_iff,
      Bool.and_eq_false_imp, decide_eq_false_iff_not, decide_eq_true_eq]
    by_cases h : a.kind.rank ≤ b.kind.rank
    · by_cases h2 : a.kind.rank = b.kind.rank
      · by_cases h3 : a.get_timestamp ≤ b.get_timestamp
        · left
          exact ⟨by omega, fun _ => by omega⟩
        · right
          exact ⟨by omega, fun _ => by omega⟩
      · left
        exact ⟨by omega, fun h4 => absurd h4.symm h2⟩
    · right
      exact ⟨by omega, fun h4 => by omega⟩

/-! ### `std::sort` rearranges and orders -/

section StdSortProofs

variable {α : Type}

theorem set_set_perm (a : List α) (h s : Nat) (x v : α) (hh : h < a.length)
    (hs : a[s]? = some x) : ((a.set h x).set s v).Perm (a.set h v) := by
  classical
  obtain ⟨hs1, hs2⟩ := List.getElem?_eq_some.1 hs
  have hs3 : s < (a.set h x).length := by simpa using hs1
  have hx : (a.set h x)[s] = x := by
    rw [List.getElem_set]
    split
    · rfl
    · exact hs2
  rw [List.perm_iff_count]
  intro b
  rw [List.count_set _ _ _ _ hs3, List.count_set _ _ _ _ hh, List.count_set _ _ _ _ hh, hx]
  split_ifs <;> omega

theorem set_self (a : List α) (i : Nat) (x : α) (h : a[i]? = some x) : a.set i x = a := by
  apply List.ext_getElem?
  intro j
  rw [List.getElem?_set]
  obtain ⟨h1, h2⟩ := List.getElem?_eq_some.1 h
  split_ifs with hij
  · subst hij
    exact h.symm
  · rfl

theorem iter_swap_perm (a : List α) (i j : Nat) : (iter_swap a i j).Perm a := by
  unfold iter_swap
  cases hi : a[i]? with
  | none => exact List.Perm.refl _
  | some x =>
    cases hj : a[j]? with
    | none => exact List.Perm.refl _
    | some y =>
      have h1 := set_set_perm a i j y x (List.getElem?_eq_some.1 hi).1 hj
      rw [set_self a i x hi] at h1
      exact h1

theorem moveTo_of_some (a : List α) (dst src : Nat) (x : α) (h : a[src]? = some x) :
    moveTo a dst src = a.set dst x := by
  simp [moveTo, h]

theorem move_median_to_first_perm (lt : α → α → Bool) (a : List α) (result x b c : Nat) :
    (move_median_to_first lt a result x b c).Perm a := by
  unfold move_median_to_first
  split_ifs <;> exact iter_swap_perm _ _ _

theorem scanUp_le (lt : α → α → Bool) (pivot : α) :
    ∀ (l : List α) (first : Nat), scanUp lt pivot l first ≤ first + l.length
  | [], first => by simp [scanUp]
  | x :: rest, first => by
    unfold scanUp
    split_ifs
    · have := scanUp_le lt pivot rest (first + 1)
      simp only [List.length_cons]
      omega
    · omega

theorem scanDown_le (lt : α → α → Bool) (a : List α) (pivot : α) :
    ∀ last : Nat, scanDown lt a pivot last ≤ last
  | 0 => by simp [scanDown]
  | last + 1 => by
    unfold scanDown
    have := scanDown_le lt a pivot last
    split
    · split_ifs <;> omega
    · omega

theorem unguarded_partition_spec (lt : α → α → Bool) (pivot : Nat) :
    ∀ (fuel : Nat) (a : List α) (first last : Nat), first ≤ a.length → last ≤ a.length →
      (unguarded_partition lt pivot fuel a first last).1.Perm a ∧
        (unguarded_partition lt pivot fuel a first last).2 ≤ a.length
  | 0, a, first, last, hf, _ => by simp [unguarded_partition, hf]
  | fuel + 1, a, first, last, hf, hl => by
    unfold unguarded_partition
    cases hp : a[pivot]? with
    | none => exact ⟨List.Perm.refl _, hf⟩
    | some p =>
      have h1 := scanUp_le lt p (a.drop first) first
      have h2 := scanDown_le lt a p (last - 1)
      simp only [List.length_drop] at h1
      dsimp only
      split_ifs with hc
      · exact ⟨List.Perm.refl _, by omega⟩
      · simp only [Bool.not_eq_true', decide_eq_false_iff_not, not_not] at hc
        have hlen := (iter_swap_perm a (scanUp lt p (a.drop first) first)
          (scanDown lt a p (last - 1))).length_eq
        have ih := unguarded_partition_spec lt pivot fuel
          (iter_swap a (scanUp lt p (a.drop first) first) (scanDown lt a p (last - 1)))
          (scanUp lt p (a.drop first) first + 1) (scanDown lt a p (last - 1))
          (by omega) (by omega)
        exact ⟨ih.1.trans (iter_swap_perm _ _ _), by omega⟩

theorem unguarded_partition_pivot_spec (lt : α → α → Bool) (a : List α) (first last : Nat)
    (hf : first < last) (hl : last ≤ a.length) :
    (unguarded_partition_pivot lt a first last).1.Perm a ∧
      (unguarded_partition_pivot lt a first last).2 ≤ a.length := by
  unfold unguarded_partition_pivot
  have hm := move_median_to_first_perm lt a first (first + 1)
    (first + (last - first) / 2) (last - 1)
  have h := unguarded_partition_spec lt first last
    (move_median_to_first lt a first (first + 1) (first + (last - first) / 2) (last - 1))
    (first + 1) last (by rw [hm.length_eq]; omega) (by rw [hm.length_eq]; omega)
  exact ⟨h.1.trans hm, by rw [← hm.length_eq]; exact h.2⟩

theorem push_heap_perm (lt : α → α → Bool) (first topIndex : Nat) (value : α) :
    ∀ (fuel : Nat) (a : List α) (holeIndex : Nat), first + holeIndex < a.length →
      (push_heap lt first topIndex value fuel a holeIndex).Perm (a.set (first + holeIndex) value)
  | 0, a, holeIndex, _ => by simp [push_heap]
  | fuel + 1, a, holeIndex, hh => by
    unfold push_heap
    dsimp only
    have hp : first + (holeIndex - 1) / 2 < a.length := by omega
    rw [List.getElem?_eq_getElem hp]
    dsimp only
    split_ifs
    · have ih := push_heap_perm lt first topIndex value fuel
        (a.set (first + holeIndex) a[first + (holeIndex - 1) / 2]) ((holeIndex - 1) / 2)
        (by simpa using hp)
      exact ih.trans (set_set_perm a _ _ _ value hh (List.getElem?_eq_getElem hp))
    · exact List.Perm.refl _

theorem adjust_heap_loop_spec (lt : α → α → Bool) (first len : Nat) :
    ∀ (fuel : Nat) (a : List α) (h s : Nat), first + len ≤ a.length → h < len →
      (adjust_heap_loop lt first len fuel a h s).1.length = a.length ∧
      (adjust_heap_loop lt first len fuel a h s).2.1 < len ∧
      ∀ v, ((adjust_heap_loop lt first len fuel a h s).1.set
        (first + (adjust_heap_loop lt first len fuel a h s).2.1) v).Perm (a.set (first + h) v)
  | 0, a, h, s, _, hh => by
    unfold adjust_heap_loop
    exact ⟨rfl, hh, fun v => List.Perm.refl _⟩
  | fuel + 1, a, h, s, hl, hh => by
    unfold adjust_heap_loop
    split_ifs with hs
    · dsimp only
      generalize hc : (if compAt lt a (first + 2 * (s + 1)) (first + (2 * (s + 1) - 1)) = true
        then 2 * (s + 1) - 1 else 2 * (s + 1)) = c
      have hcl : c ≤ 2 * (s + 1) := by
        rw [← hc]
        split_ifs <;> omega
      have hb : first + c < a.length := by omega
      rw [moveTo_of_some a _ _ _ (List.getElem?_eq_getElem hb)]
      have ih := adjust_heap_loop_spec lt first len fuel
        (a.set (first + h) a[first + c]) c c (by simpa using hl) (by omega)
      refine ⟨by simpa using ih.1, ih.2.1, fun v => ?_⟩
      exact (ih.2.2 v).trans
        (set_set_perm a _ _ _ v (by omega) (List.getElem?_eq_getElem hb))
    · exact ⟨rfl, hh, fun v => List.Perm.refl _⟩

theorem adjust_heap_perm (lt : α → α → Bool) (a : List α) (first holeIndex len : Nat)
    (value : α) (hl : first + len ≤ a.length) (hh : holeIndex < len) :
    (adjust_heap lt a first holeIndex len value).Perm (a.set (first + holeIndex) value) := by
  unfold adjust_heap
  have hs := adjust_heap_loop_spec lt first len len a holeIndex holeIndex hl hh
  revert hs
  generalize adjust_heap_loop lt first len len a holeIndex holeIndex = r
  obtain ⟨a1, h1, s1⟩ := r
  intro hs
  dsimp only at hs ⊢
  split_ifs with hc
  · simp only [Bool.and_eq_true, beq_iff_eq] at hc
    have hb : first + (2 * (s1 + 1) - 1) < a1.length := by omega
    rw [moveTo_of_some a1 _ _ _ (List.getElem?_eq_getElem hb)]
    have hp := push_heap_perm lt first holeIndex value (2 * (s1 + 1) - 1)
      (a1.set (first + h1) a1[first + (2 * (s1 + 1) - 1)]) (2 * (s1 + 1) - 1)
      (by simpa using hb)
    exact (hp.trans (set_set_perm a1 _ _ _ value (by omega)
      (List.getElem?_eq_getElem hb))).trans (hs.2.2 value)
  · exact (push_heap_perm lt first holeIndex value h1 a1 h1 (by omega)).trans (hs.2.2 value)

theorem pop_heap_perm (lt : α → α → Bool) (a : List α) (first last result : Nat)
    (hf : first < last) (hl : last ≤ a.length) (hr : result < a.length) :
    (pop_heap lt a first last result).Perm a := by
  unfold pop_heap
  rw [List.getElem?_eq_getElem hr]
  dsimp only
  have hb : first < a.length := by omega
  rw [moveTo_of_some a _ _ _ (List.getElem?_eq_getElem hb)]
  have h1 := adjust_heap_perm lt (a.set result a[first]) first 0 (last - first) a[result]
    (by simp only [List.length_set]; omega) (by omega)
  have h2 := set_set_perm a result first a[first] a[result] hr (List.getElem?_eq_getElem hb)
  rw [set_self a result a[result] (List.getElem?_eq_getElem hr)] at h2
  exact h1.trans h2

theorem make_heap_loop_perm (lt : α → α → Bool) (first len : Nat) :
    ∀ (parent : Nat) (a : List α), first + len ≤ a.length → parent < len →
      (make_heap_loop lt first len parent a).Perm a
  | 0, a, hl, hp => by
    unfold make_heap_loop
    have hb : first < a.length := by omega
    rw [List.getElem?_eq_getElem hb]
    dsimp only
    have h := adjust_heap_perm lt a first 0 len a[first] hl hp
    rw [Nat.add_zero, set_self a first a[first] (List.getElem?_eq_getElem hb)] at h
    exact h
  | parent + 1, a, hl, hp => by
    unfold make_heap_loop
    have hb : first + (parent + 1) < a.length := by omega
    rw [List.getElem?_eq_getElem hb]
    dsimp only
    have h := adjust_heap_perm lt a first (parent + 1) len a[first + (parent + 1)] hl hp
    rw [set_self a _ _ (List.getElem?_eq_getElem hb)] at h
    exact (make_heap_loop_perm lt first len parent _ (by rw [h.length_eq]; exact hl)
      (by omega)).trans h

theorem make_heap_perm (lt : α → α → Bool) (a : List α) (first last : Nat)
    (hl : last ≤ a.length) : (make_heap lt a first last).Perm a := by
  unfold make_heap
  split_ifs with h
  · exact List.Perm.refl _
  · exact make_heap_loop_perm lt first (last - first) _ a (by omega) (by omega)

theorem sort_heap_perm (lt : α → α → Bool) (first : Nat) :
    ∀ (n : Nat) (a : List α), first + n ≤ a.length → (sort_heap lt first n a).Perm a
  | 0, a, _ => by simp [sort_heap]
  | n + 1, a, hl => by
    unfold sort_heap
    split_ifs with h
    · have hp := pop_heap_perm lt a first (first + n) (first + n) (by omega) (by omega)
        (by omega)
      exact (sort_heap_perm lt first n _ (by rw [hp.length_eq]; omega)).trans hp
    · exact List.Perm.refl _

theorem partial_sort_perm (lt : α → α → Bool) (a : List α) (first last : Nat)
    (hf : first ≤ last) (hl : last ≤ a.length) : (partial_sort lt a first last last).Perm a := by
  unfold partial_sort heap_select
  rw [Nat.sub_self]
  simp only [heap_select_loop]
  have hm := make_heap_perm lt a first last hl
  exact (sort_heap_perm lt first (last - first) _ (by rw [hm.length_eq]; omega)).trans hm

theorem introsort_loop_perm (lt : α → α → Bool) :
    ∀ (depth_limit : Nat) (a : List α) (first last : Nat), last ≤ a.length →
      (introsort_loop lt depth_limit a first last).Perm a
  | 0, a, first, last, hl => by
    unfold introsort_loop
    split_ifs
    · exact partial_sort_perm lt a first last (by omega) hl
    · exact List.Perm.refl _
  | depth_limit + 1, a, first, last, hl => by
    unfold introsort_loop
    split_ifs with h
    · have hs := unguarded_partition_pivot_spec lt a first last (by omega) hl
      revert hs
      generalize unguarded_partition_pivot lt a first last = r
      obtain ⟨a1, cut⟩ := r
      intro hs
      dsimp only at hs ⊢
      have h1 := introsort_loop_perm lt depth_limit a1 cut last (by rw [hs.1.length_eq]; exact hl)
      have h2 := introsort_loop_perm lt depth_limit (introsort_loop lt depth_limit a1 cut last)
        first cut (by rw [h1.length_eq, hs.1.length_eq]; exact hs.2)
      exact (h2.trans h1).trans hs.1
    · exact List.Perm.refl _

end StdSortProofs

section StdSortInsertion

variable {α : Type}

theorem getElem?_length_append (P : List α) (z : α) (R : List α) :
    (P ++ z :: R)[P.length]? = some z := by
  rw [List.getElem?_append_right (Nat.le_refl _)]
  simp

theorem set_length_append (P : List α) (z v : α) (R : List α) :
    (P ++ z :: R).set P.length v = P ++ v :: R := by
  rw [List.set_append_right _ _ (Nat.le_refl _)]
  simp

theorem linear_insert_loop_spec (lt : α → α → Bool)
    (hT : ∀ x y z, lt y x = false → lt z y = false → lt z x = false) (val : α) :
    ∀ (P : List α) (z : α) (R : List α), P.Pairwise (fun x y => lt y x = false) →
      ∃ pre mid, P = pre ++ mid ∧
        linear_insert_loop lt val P.length (P ++ z :: R) = pre ++ val :: mid ++ R ∧
        (∀ x ∈ pre, lt val x = false) ∧ ∀ y ∈ mid, lt val y = true := by
  intro P
  induction P using List.reverseRecOn with
  | nil =>
    intro z R _
    exact ⟨[], [], rfl, by simp [linear_insert_loop], by simp, by simp⟩
  | append_singleton P x ih =>
    intro z R hP
    have hlen : (P ++ [x]).length = P.length + 1 := by simp
    have hlist : P ++ [x] ++ z :: R = P ++ x :: z :: R := by simp
    have hset : ∀ v, (P ++ x :: z :: R).set (P.length + 1) v = P ++ x :: v :: R := by
      intro v
      have := set_length_append (P ++ [x]) z v R
      rw [hlen, hlist] at this
      rw [this]
      simp
    rw [hlen, hlist]
    unfold linear_insert_loop
    rw [getElem?_length_append P x (z :: R)]
    dsimp only
    rw [List.pairwise_append] at hP
    split_ifs with hc
    · obtain ⟨pre, mid, h1, h2, h3, h4⟩ := ih x (x :: R) hP.1
      refine ⟨pre, mid ++ [x], by rw [h1]; simp, ?_, h3, ?_⟩
      · rw [hset, h2]
        simp
      · intro y hy
        rcases List.mem_append.1 hy with hy | hy
        · exact h4 y hy
        · rw [List.mem_singleton.1 hy]
          exact hc
    · refine ⟨P ++ [x], [], by simp, ?_, ?_, by simp⟩
      · rw [hset]
        simp
      · simp only [Bool.not_eq_true] at hc
        intro y hy
        rcases List.mem_append.1 hy with hy | hy
        · exact hT y x val (hP.2.2 y hy x (by simp)) hc
        · rw [List.mem_singleton.1 hy]
          exact hc

theorem move_backward_spec (val : α) :
    ∀ (P : List α) (z : α) (R : List α),
      (move_backward 0 P.length (P ++ z :: R)).set 0 val = val :: P ++ R := by
  intro P
  induction P using List.reverseRecOn with
  | nil =>
    intro z R
    simp [move_backward]
  | append_singleton P x ih =>
    intro z R
    have hlen : (P ++ [x]).length = P.length + 1 := by simp
    have hlist : P ++ [x] ++ z :: R = P ++ x :: z :: R := by simp
    rw [hlen, hlist]
    unfold move_backward
    rw [Nat.zero_add, moveTo_of_some _ _ _ x (getElem?_length_append P x (z :: R))]
    have hset : (P ++ x :: z :: R).set (P.length + 1) x = P ++ x :: x :: R := by
      have := set_length_append (P ++ [x]) z x R
      rw [hlen, hlist] at this
      rw [this]
      simp
    rw [hset, ih x (x :: R)]
    simp

theorem sorted_insert (lt : α → α → Bool) (hA : ∀ x y, lt x y = true → lt y x = false)
    (pre mid : List α) (val : α)
    (hP : (pre ++ mid).Pairwise (fun x y => lt y x = false))
    (h1 : ∀ x ∈ pre, lt val x = false) (h2 : ∀ y ∈ mid, lt val y = true) :
    (pre ++ val :: mid).Pairwise (fun x y => lt y x = false) := by
  rw [List.pairwise_append] at hP ⊢
  refine ⟨hP.1, List.pairwise_cons.2 ⟨fun y hy => hA val y (h2 y hy), hP.2.1⟩, ?_⟩
  intro x hx y hy
  rcases List.mem_cons.1 hy with hy | hy
  · rw [hy]
    exact h1 x hx
  · exact hP.2.2 x hx y hy

/-- One step of the insertion loops: with the sorted part `P` in front of
`val`, the step leaves a sorted arrangement of `P` and `val` in front. -/
theorem insert_step_spec (lt : α → α → Bool)
    (hT : ∀ x y z, lt y x = false → lt z y = false → lt z x = false)
    (hA : ∀ x y, lt x y = true → lt y x = false) (P : List α) (val : α) (R : List α)
    (hP : P.Pairwise (fun x y => lt y x = false)) :
    (∃ Q, unguarded_linear_insert lt (P ++ val :: R) P.length = Q ++ R ∧
      Q.Perm (P ++ [val]) ∧ Q.Pairwise (fun x y => lt y x = false)) ∧
    (compAt lt (P ++ val :: R) P.length 0 = true →
      (val :: P).Pairwise (fun x y => lt y x = false)) := by
  constructor
  · obtain ⟨pre, mid, h1, h2, h3, h4⟩ := linear_insert_loop_spec lt hT val P val R hP
    refine ⟨pre ++ val :: mid, ?_, ?_, ?_⟩
    · unfold unguarded_linear_insert
      rw [getElem?_length_append]
      dsimp only
      rw [h2]
    · rw [h1]
      exact List.perm_middle.trans (List.perm_append_singleton _ _).symm
    · rw [h1] at hP
      exact sorted_insert lt hA pre mid val hP h3 h4
  · intro hc
    cases P with
    | nil => simp
    | cons p P =>
      unfold compAt at hc
      have e1 : (p :: P ++ val :: R)[(p :: P).length]? = some val :=
        getElem?_length_append (p :: P) val R
      have e2 : (p :: P ++ val :: R)[0]? = some p := by simp
      rw [e1, e2] at hc
      dsimp only at hc
      refine List.pairwise_cons.2 ⟨?_, hP⟩
      intro y hy
      rcases List.mem_cons.1 hy with hy | hy
      · rw [hy]
        exact hA val p hc
      · exact hT val p y (hA val p hc) ((List.pairwise_cons.1 hP).1 y hy)

theorem unguarded_insertion_sort_spec (lt : α → α → Bool)
    (hT : ∀ x y z, lt y x = false → lt z y = false → lt z x = false)
    (hA : ∀ x y, lt x y = true → lt y x = false) :
    ∀ (n : Nat) (P rest : List α), n ≤ rest.length →
      P.Pairwise (fun x y => lt y x = false) →
      ∃ Q, unguarded_insertion_sort lt n (P ++ rest) P.length = Q ++ rest.drop n ∧
        Q.Perm (P ++ rest.take n) ∧ Q.Pairwise (fun x y => lt y x = false) ∧
        Q.length = P.length + n
  | 0, P, rest, _, hP => ⟨P, by simp [unguarded_insertion_sort], by simp, hP, rfl⟩
  | n + 1, P, [], hn, _ => by simp at hn
  | n + 1, P, val :: R, hn, hP => by
    unfold unguarded_insertion_sort
    obtain ⟨Q, h1, h2, h3⟩ := (insert_step_spec lt hT hA P val R hP).1
    have hlen : Q.length = P.length + 1 := by simpa using h2.length_eq
    rw [h1, ← hlen]
    obtain ⟨Q2, g1, g2, g3, g4⟩ := unguarded_insertion_sort_spec lt hT hA n Q R
      (by simpa using hn) h3
    refine ⟨Q2, by simpa using g1, ?_, g3, by omega⟩
    refine g2.trans ?_
    simp only [List.take_succ_cons]
    exact (List.Perm.append_right _ h2).trans (by simp)

theorem insertion_sort_loop_spec (lt : α → α → Bool)
    (hT : ∀ x y z, lt y x = false → lt z y = false → lt z x = false)
    (hA : ∀ x y, lt x y = true → lt y x = false) :
    ∀ (n : Nat) (P rest : List α), n ≤ rest.length →
      P.Pairwise (fun x y => lt y x = false) →
      ∃ Q, insertion_sort_loop lt 0 n (P ++ rest) P.length = Q ++ rest.drop n ∧
        Q.Perm (P ++ rest.take n) ∧ Q.Pairwise (fun x y => lt y x = false) ∧
        Q.length = P.length + n
  | 0, P, rest, _, hP => ⟨P, by simp [insertion_sort_loop], by simp, hP, rfl⟩
  | n + 1, P, [], hn, _ => by simp at hn
  | n + 1, P, val :: R, hn, hP => by
    unfold insertion_sort_loop
    have key : ∀ b : List α, (∃ Q, b = Q ++ R ∧ Q.Perm (P ++ [val]) ∧
        Q.Pairwise (fun x y => lt y x = false)) →
        ∃ Q, insertion_sort_loop lt 0 n b (P.length + 1) = Q ++ List.drop (n + 1) (val :: R) ∧
          Q.Perm (P ++ List.take (n + 1) (val :: R)) ∧
          Q.Pairwise (fun x y => lt y x = false) ∧ Q.length = P.length + (n + 1) := by
      rintro b ⟨Q, rfl, h2, h3⟩
      have hlen : Q.length = P.length + 1 := by simpa using h2.length_eq
      rw [← hlen]
      obtain ⟨Q2, g1, g2, g3, g4⟩ := insertion_sort_loop_spec lt hT hA n Q R
        (by simpa using hn) h3
      refine ⟨Q2, by simpa using g1, ?_, g3, by omega⟩
      refine g2.trans ?_
      simp only [List.take_succ_cons]
      exact (List.Perm.append_right _ h2).trans (by simp)
    apply key
    split_ifs with hc
    · refine ⟨val :: P, ?_, (List.perm_append_singleton val P).symm, (insert_step_spec lt hT hA P val R hP).2 hc⟩
      rw [getElem?_length_append]
      dsimp only
      rw [Nat.sub_zero, move_backward_spec]
    · exact (insert_step_spec lt hT hA P val R hP).1

end StdSortInsertion

section StdSortTop

variable {α : Type}

theorem insertion_sort_spec (lt : α → α → Bool)
    (hT : ∀ x y z, lt y x = false → lt z y = false → lt z x = false)
    (hA : ∀ x y, lt x y = true → lt y x = false) (x : α) (rest : List α) (n : Nat)
    (hn : n ≤ rest.length) :
    ∃ Q, insertion_sort lt (x :: rest) 0 (n + 1) = Q ++ rest.drop n ∧
      Q.Perm (x :: rest.take n) ∧ Q.Pairwise (fun x y => lt y x = false) ∧
      Q.length = n + 1 := by
  obtain ⟨Q, h1, h2, h3, h4⟩ := insertion_sort_loop_spec lt hT hA n [x] rest hn
    (List.pairwise_singleton _ _)
  refine ⟨Q, ?_, h2, h3, by simpa [Nat.add_comm] using h4⟩
  unfold insertion_sort
  have hne : (0 == n + 1) = false := by simp
  rw [hne]
  simpa using h1

theorem final_insertion_sort_spec (lt : α → α → Bool)
    (hT : ∀ x y z, lt y x = false → lt z y = false → lt z x = false)
    (hA : ∀ x y, lt x y = true → lt y x = false) (a : List α) :
    (final_insertion_sort lt a 0 a.length).Perm a ∧
      (final_insertion_sort lt a 0 a.length).Pairwise (fun x y => lt y x = false) := by
  unfold final_insertion_sort
  cases a with
  | nil => simp [insertion_sort]
  | cons x rest =>
    split_ifs with h
    · simp only [List.length_cons, Nat.sub_zero] at h
      obtain ⟨Q, h1, h2, h3, h4⟩ := insertion_sort_spec lt hT hA x rest 15 (by omega)
      have h5 : Q.length = 16 := h4
      rw [Nat.zero_add, h1, ← h5]
      obtain ⟨Q2, g1, g2, g3, _⟩ := unguarded_insertion_sort_spec lt hT hA
        ((x :: rest).length - Q.length) Q (rest.drop 15)
        (by simp only [List.length_cons, List.length_drop]; omega) h3
      have hd : List.drop ((x :: rest).length - Q.length) (List.drop 15 rest) = [] := by
        apply List.drop_eq_nil_of_le
        simp only [List.length_cons, List.length_drop]
        omega
      have ht : List.take ((x :: rest).length - Q.length) (List.drop 15 rest)
          = List.drop 15 rest := by
        apply List.take_of_length_le
        simp only [List.length_cons, List.length_drop]
        omega
      rw [g1, hd, List.append_nil]
      refine ⟨?_, g3⟩
      rw [ht] at g2
      refine g2.trans ((List.Perm.append_right _ h2).trans ?_)
      rw [List.cons_append, List.take_append_drop]
    · obtain ⟨Q, h1, h2, h3, _⟩ := insertion_sort_spec lt hT hA x rest rest.length
        (Nat.le_refl _)
      rw [List.length_cons, h1, List.drop_length, List.append_nil]
      rw [List.take_length] at h2
      exact ⟨h2, h3⟩

/-- The vector after `std::sort` is a rearrangement of the vector before,
for a comparison that is a strict weak ordering. -/
theorem stdSort_perm (lt : α → α → Bool)
    (hT : ∀ x y z, lt y x = false → lt z y = false → lt z x = false)
    (hA : ∀ x y, lt x y = true → lt y x = false) (a : List α) :
    (stdSort lt a).Perm a := by
  unfold stdSort
  generalize lg a.length * 2 = d
  split_ifs
  · have hi := introsort_loop_perm lt d a 0 a.length (Nat.le_refl _)
    generalize introsort_loop lt d a 0 a.length = b at hi ⊢
    rw [← hi.length_eq]
    exact (final_insertion_sort_spec lt hT hA _).1.trans hi
  · exact List.Perm.refl _

/-- After `std::sort` no element is less than an earlier one, for a
comparison that is a strict weak ordering. -/
theorem stdSort_sorted (lt : α → α → Bool)
    (hT : ∀ x y z, lt y x = false → lt z y = false → lt z x = false)
    (hA : ∀ x y, lt x y = true → lt y x = false) (a : List α) :
    (stdSort lt a).Pairwise (fun x y => lt y x = false) := by
  unfold stdSort
  generalize lg a.length * 2 = d
  split_ifs with h
  · have hi := introsort_loop_perm lt d a 0 a.length (Nat.le_refl _)
    generalize introsort_loop lt d a 0 a.length = b at hi ⊢
    rw [← hi.length_eq]
    exact (final_insertion_sort_spec lt hT hA _).2
  · simp only [bne_iff_ne, ne_eq, List.length_eq_zero, not_not] at h
    rw [h]
    exact List.Pairwise.nil

/-- The function `lg` is the binary logarithm rounded down. -/
theorem lgLoop_eq_log2 : ∀ (fuel n : Nat), n ≤ fuel → lgLoop fuel n = Nat.log2 n
  | 0, n, h => by
    have hn : n = 0 := by omega
    subst hn
    rw [Nat.log2]
    simp [lgLoop]
  | fuel + 1, n, h => by
    rw [Nat.log2]
    unfold lgLoop
    split_ifs with h2
    · rw [lgLoop_eq_log2 fuel (n / 2) (by omega)]
    · rfl

theorem lg_eq_log2 (n : Nat) : lg n = Nat.log2 n :=
  lgLoop_eq_log2 n n (Nat.le_refl n)

end StdSortTop

/-- The order `operator<` is asymmetric. -/
theorem lt_asymm (a b : Operation) (h : a.lt b = true) : b.lt a = false := by
  have h1 := not_lt_total_trans.2 b a
  rw [h] at h1
  simpa using h1

/-- Being not less is transitive for `operator<`. -/
theorem not_lt_trans (a b c : Operation) (h1 : b.lt a = false) (h2 : c.lt b = false) :
    c.lt a = false := by
  have h := not_lt_total_trans.1 a b c (by simp [h1]) (by simp [h2])
  simpa using h

/-- What `std::sort` returns for a list of operations is one of the results
that the contract of the library allows. -/
theorem stdSort_isStdSort (input : List Operation) :
    IsStdSort input (stdSort Operation.lt input) :=
  ⟨stdSort_perm Operation.lt not_lt_trans lt_asymm input,
    stdSort_sorted Operation.lt not_lt_trans lt_asymm input⟩

/-- The counterexample to C3: seventeen updates of the same instant. They are
equal in kind and timestamp, so a stable sort would leave them as they are;
`std::sort` partitions them around a median of three and returns them in
another order, with "status" first and "due", which was second, last. -/
theorem std_sort_not_stable :
    (∀ o ∈ sameInstant, o.kind = Kind.Update ∧ o.get_timestamp = 100) ∧
    sameInstant.map Operation.get_property =
      ["description", "due", "entry", "modified", "priority", "project", "recur",
        "scheduled", "status", "until", "wait", "parent", "imask", "mask", "end", "start",
        "uuid"] ∧
    (stdSort Operation.lt sameInstant).map Operation.get_property =
      ["status", "uuid", "start", "end", "mask", "imask", "parent", "wait", "until",
        "description", "scheduled", "recur", "project", "priority", "modified", "entry",
        "due"] ∧
    ¬ IsStable sameInstant (stdSort Operation.lt sameInstant) := by
  refine ⟨by decide, by decide, by decide, ?_⟩
  intro h
  have := h Kind.Update 100
  revert this
  decide

/-- C3, amended (ordering stage): for every list of operations, the sorted
list used for replay, which is what `std::sort` returns for it, is a
permutation of the input that is ordered by the kind rank Create(0) <
Update(1) < Delete(2) < UndoPoint(3) and is non-decreasing in timestamp
within a kind. Operations of equal kind and equal timestamp need not keep
their input order. -/
theorem std_sort_ordered (input : List Operation) :
    (stdSort Operation.lt input).Perm input ∧
    (stdSort Operation.lt input).Pairwise (fun a b => a.kind.rank ≤ b.kind.rank) ∧
    (stdSort Operation.lt input).Pairwise
      (fun a b => a.kind = b.kind → a.get_timestamp ≤ b.get_timestamp) := by
  have hsorted := stdSort_sorted Operation.lt not_lt_trans lt_asymm input
  refine ⟨stdSort_perm Operation.lt not_lt_trans lt_asymm input, hsorted.imp ?_,
    hsorted.imp ?_⟩
  · intro a b hab
    simp only [Operation.lt, Bool.or_eq_false_iff, decide_eq_false_iff_not] at hab
    omega
  · intro a b hab hk
    simp only [Operation.lt, Bool.or_eq_false_iff, decide_eq_false_iff_not,
      Bool.and_eq_false_imp, decide_eq_true_eq, hk] at hab
    have := hab.2 trivial
    omega

/-- An instance of the amended C3: an undo point, an update at 101, a
creation and an update at 100 are sorted into the creation, the update at
100, the update at 101 and the undo point. -/
theorem std_sort_ordered_witness :
    stdSort Operation.lt unsortedOperations = sortedOperations ∧
      (stdSort Operation.lt unsortedOperations).Perm unsortedOperations ∧
      (stdSort Operation.lt unsortedOperations).Pairwise
        (fun a b => a.kind.rank ≤ b.kind.rank) ∧
      (stdSort Operation.lt unsortedOperations).Pairwise
        (fun a b => a.kind = b.kind → a.get_timestamp ≤ b.get_timestamp) :=
  ⟨by decide, std_sort_ordered unsortedOperations⟩

/-! ## The claims about the grouping -/

/-- C1 (fixed-anchor grouping window): every group `[gs, ge)` that the
grouping loop forms starts at an update, its anchor, and is followed by the
longest run of operations that are updates with
`timestamp(op) - timestamp(anchor) ≤ 1`: every member is such an update,
and the operation at `ge`, if there is one, is not. The comparison is with
the anchor, never with the member before. -/
theorem group_is_anchor_window (operations : List Operation) (gs ge : Nat)
    (h : (gs, ge) ∈ groups operations) :
    ∃ anchor, operations[gs]? = some anchor ∧ anchor.is_update = true ∧
      gs < ge ∧ ge ≤ operations.length ∧
      (∀ j, gs < j → j < ge → ∃ op, operations[j]? = some op ∧ op.is_update = true ∧
        op.get_timestamp - anchor.get_timestamp ≤ 1) ∧
      (∀ op, operations[ge]? = some op →
        ¬ (op.is_update = true ∧ op.get_timestamp - anchor.get_timestamp ≤ 1)) :=
  (groupLoop_window operations _ _ gs ge h).2

/-- The example of C1: updates at 100, 100, 101 and 102 form the groups
`[0, 3)` and `[3, 4)`, the update at 102 starting a group of its own. -/
theorem group_is_anchor_window_witness :
    groups fourUpdates = [(0, 3), (3, 4)] ∧ IsWindow fourUpdates 0 3 ∧
      IsWindow fourUpdates 3 4 :=
  ⟨by decide, group_is_anchor_window fourUpdates 0 3 (by decide),
    group_is_anchor_window fourUpdates 3 4 (by decide)⟩

/-- C2 (the groups partition the updates): the ranges `[gs, ge)` of the
grouping loop are non-empty, in increasing order and disjoint (each ends
at or before the start of every later one); a group holds updates only, so
an operation that is not an update is in no group; every update is in
exactly one group; the slices of the groups, in order, are the updates of
the list in list order; and after each group the scan resumes at the first
operation past it (the groups that follow are those of the loop started at
`ge`). -/
theorem groups_partition_updates (operations : List Operation) :
    (groups operations).Pairwise (fun g h => g.2 ≤ h.1) ∧
    (∀ g ∈ groups operations, g.1 < g.2 ∧ g.2 ≤ operations.length) ∧
    (∀ g ∈ groups operations, ∀ j op, g.1 ≤ j → j < g.2 → operations[j]? = some op →
      op.is_update = true) ∧
    (∀ j op, operations[j]? = some op → op.is_update = false →
      ∀ g ∈ groups operations, ¬ (g.1 ≤ j ∧ j < g.2)) ∧
    (∀ j op, operations[j]? = some op → op.is_update = true →
      ∃! g, g ∈ groups operations ∧ g.1 ≤ j ∧ j < g.2) ∧
    (groups operations).flatMap (fun g => slice operations g.1 g.2) =
      operations.filter (fun x => x.is_update) ∧
    (∀ gpre gs ge gpost, groups operations = gpre ++ (gs, ge) :: gpost →
      gpost = groupLoop operations operations.length ge) := by
  obtain ⟨hp, hc, hf⟩ := groupLoop_partition operations operations.length 0 (by omega)
  have hmem : ∀ g ∈ groups operations, ∀ j op, g.1 ≤ j → j < g.2 → operations[j]? = some op →
      op.is_update = true := by
    rintro ⟨gs, ge⟩ hg j op h1 h2 hj
    obtain ⟨anchor, ha, hau, -, -, hm, -⟩ := group_window_aux operations gs ge hg
    by_cases hjg : j = gs
    · subst hjg
      rw [ha] at hj
      cases hj
      exact hau
    · obtain ⟨op2, hop2, hu2, -⟩ := hm j (by simp only at h1; omega) h2
      rw [hop2] at hj
      cases hj
      exact hu2
  refine ⟨hp, ?_, hmem, ?_, ?_, ?_,
    fun gpre gs ge gpost h => groups_resume operations gpre gpost gs ge h⟩
  · rintro ⟨gs, ge⟩ hg
    obtain ⟨anchor, -, -, h1, h2, -⟩ := group_window_aux operations gs ge hg
    exact ⟨h1, h2⟩
  · intro j op hj hu g hg hin
    have := hmem g hg j op hin.1 hin.2 hj
    rw [hu] at this
    cases this
  · intro j op hj hu
    obtain ⟨g, hg, hg1, hg2⟩ := hc j op (Nat.zero_le _) hj hu
    refine ⟨g, ⟨hg, hg1, hg2⟩, ?_⟩
    rintro g2 ⟨hg2m, h21, h22⟩
    by_contra hne
    have hsym : (groups operations).Pairwise (fun g h => g.2 ≤ h.1 ∨ h.2 ≤ g.1) :=
      hp.imp (fun hab => Or.inl hab)
    have := hsym.forall (fun a b hab => hab.symm) hg2m hg hne
    omega
  · simpa using hf

/-- An instance of C2: the four updates of the example, an operation of
another kind between them. -/
theorem groups_partition_updates_witness :
    groups mixedOperations = [(1, 3), (4, 5)] ∧
      (groups mixedOperations).flatMap (fun g => slice mixedOperations g.1 g.2) =
        mixedOperations.filter (fun x => x.is_update) :=
  ⟨by decide, (groups_partition_updates mixedOperations).2.2.2.2.2.1⟩

/-! ## The claims about `last_start` and the sentences -/

/-- The counterexample to C4: the record stores the start 900; its start was
deleted at 1000, in the oldest group, and set to 900 at 2000. The duration
of the deletion in the journal is 1000 seconds, counted from 0, and not the
100 seconds counted from the stored start. -/
theorem seed_ignores_stored_start :
    startedTask.get "start" = "900" ∧ demoEnv.parseDatetime "900" = some 900 ∧
    groups restarted = [(0, 1), (1, 2)] ∧
    journal demoEnv "" startedTask restarted =
      .ok [{ timestamp := 1000, description := "Start deleted (duration: 1000s).\n" },
        { timestamp := 2000, description := "Start set to '900'.\n" }] ∧
    journal demoEnv "" startedTask restarted ≠
      .ok [{ timestamp := 1000, description := "Start deleted (duration: 100s).\n" },
        { timestamp := 2000, description := "Start set to '900'.\n" }] := by
  decide

/-- C4, amended (seeding of `last_start`): before the replay begins, the
running `last_start` is 0, whatever the record stores as its start: the
journal is the same for every record, and the oldest group `[gs, ge)` is
formatted with `last_start = 0`. Consequently a start deletion in the
oldest group that no start addition or change precedes there has its
duration computed as `stop - 0`. -/
theorem oldest_group_counts_from_zero (env : Env) (dateformat : String) (task : Task)
    (operations : List Operation) (gs ge : Nat) (gpost : List (Nat × Nat))
    (pre post : List Operation) (op : Operation) (old out : String) (ls stopped : Int)
    (hs : env.StartScalar)
    (hg : groups operations = (gs, ge) :: gpost)
    (hgrp : slice operations gs ge = pre ++ op :: post)
    (hu : op.is_update = true) (hp : op.get_property = "start")
    (hv : op.get_value = none) (ho : op.get_old_value = some old)
    (hno : ∀ x ∈ pre, x.get_property = "start" → x.get_value = none)
    (hpre : formatLoop env dateformat (slice operations gs ge) pre "" 0 = .ok (out, ls))
    (hstop : stopTime env (slice operations gs ge) op.get_timestamp = .ok stopped) :
    (∀ task2, journal env dateformat task2 operations = journal env dateformat task operations) ∧
    (journal env dateformat task operations =
      match formatForInfo env operations gs ge dateformat 0 with
      | .error e => .error e
      | .ok (none, ls2) =>
        (match replayGroups env dateformat operations gpost ls2 [] with
          | .error e => .error e
          | .ok (rows, _) => .ok rows)
      | .ok (some msg, ls2) =>
        (match replayGroups env dateformat operations gpost ls2
            [{ timestamp := anchorTimestamp operations gs, description := msg }] with
          | .error e => .error e
          | .ok (rows, _) => .ok rows)) ∧
    ls = 0 ∧
    formatOperation env dateformat (slice operations gs ge) op out ls =
      .ok (out ++ "Start deleted (duration: " ++ env.formatDuration (stopped - 0) ++ ")." ++
        "\n", 0) ∧
    formatForInfo env operations gs ge dateformat 0 =
      finish (formatLoop env dateformat (slice operations gs ge) post
        (out ++ "Start deleted (duration: " ++ env.formatDuration (stopped - 0) ++ ")." ++
          "\n") 0) := by
  have hls : ls = 0 := by
    rw [formatLoop_last_start env dateformat _ hs pre "" out 0 ls hpre]
    exact lastStartAfter_no_start env pre 0 hno
  have hbody := formatOperation_start_deleted env dateformat _ op old out 0 stopped hs hu hp hv
    ho hstop
  refine ⟨fun _ => rfl, ?_, hls, ?_,
    formatForInfo_split env dateformat operations gs ge pre post op 0 0 0 out _ hgrp
      (hls ▸ hpre) hbody⟩
  · rw [journal_eq_replay, hg]
    simp only [replayGroups]
    cases hf : formatForInfo env operations gs ge dateformat 0 with
    | error e => rfl
    | ok r =>
      obtain ⟨msg, l1⟩ := r
      cases msg with
      | none => rfl
      | some m => simp
  · rw [hls]
    exact hbody

/-- An instance of the amended C4: for the record that stores the start
900, the deletion of `start` at 1000 in the oldest group is counted
from 0. -/
theorem oldest_group_counts_from_zero_witness :
    groups restarted = [(0, 1), (1, 2)] ∧
    formatOperation demoEnv "" (slice restarted 0 1)
      (mkUpdate "start" none (some "500") 1000) "" 0 =
      .ok ("" ++ "Start deleted (duration: " ++ demoEnv.formatDuration (1000 - 0) ++ ")." ++
        "\n", 0) :=
  ⟨by decide,
    (oldest_group_counts_from_zero demoEnv "" startedTask restarted 0 1 [(1, 2)] [] []
      (mkUpdate "start" none (some "500") 1000) "500" "" 0 1000
      ⟨by decide, by decide, by decide⟩ (by decide) (by decide) (by decide) (by decide)
      (by decide) (by decide) (by simp) (by decide) (by decide)).2.2.2.1⟩

/-- C5 at its failing input: a group of two updates of the same second, one
deleting `start` and one deleting `end`, formatted with `last_start = 900`.
The call throws `std::bad_optional_access` and returns no narrative, so the
deletion of `start` contributes no sentence; and so does the journal of a
record with these two operations. -/
theorem start_deleted_beside_end_deleted :
    groups startAndEndDeleted = [(0, 2)] ∧
    formatForInfo demoEnv startAndEndDeleted 0 2 "" 900 = .error Err.bad_optional_access ∧
    journal demoEnv "" stoppedTask startAndEndDeleted = .error Err.bad_optional_access := by
  decide

/-- The counterexample to C6: one group holds a deletion of `start` at 1000
and two updates of `end` with a new value present, "950" at 1000 and "960"
at 1001. The stop time is not the date 950 parsed from the first of them:
the scan goes on and the later one replaces it, so with `last_start = 900`
the deletion reports 60 seconds, not 50. -/
theorem earlier_end_update_overridden :
    groups endTwice = [(0, 3)] ∧ demoEnv.parseDatetime "950" = some 950 ∧
    stopTime demoEnv (slice endTwice 0 3) 1000 = .ok 960 ∧
    formatForInfo demoEnv endTwice 0 3 "" 900 =
      .ok (some ("Start deleted (duration: 60s).\nEnd set to '950'.\n" ++
        "End changed from '950' to '960'.\n"), 900) ∧
    formatForInfo demoEnv endTwice 0 3 "" 900 ≠
      .ok (some ("Start deleted (duration: 50s).\nEnd set to '950'.\n" ++
        "End changed from '950' to '960'.\n"), 900) := by
  decide

/-- C6, amended (end-override fallback): in a group `[gs, ge)` of the list
whose updates of `end` all carry a new value, the last of them, `e` with
the new value `v`, gives the stop time: the date parsed from `v`, and the
timestamp of `e` when `v` is not a date; the scan does not fail. A deletion
of `start` in the group, reached without failure, contributes its sentence
with that stop time and the call of `formatForInfo` goes on from there. The
group, and so the override, has no effect on the outcome of any operation
that is not a deletion of `start`. -/
theorem end_override_last_wins (env : Env) (dateformat : String)
    (operations : List Operation) (gs ge : Nat) (pre post : List Operation)
    (e : Operation) (v : String)
    (hg : (gs, ge) ∈ groups operations)
    (hgrp : slice operations gs ge = pre ++ e :: post)
    (he : e.get_property = "end") (hv : e.get_value = some v)
    (hpre : ∀ x ∈ pre, x.get_property = "end" → x.get_value ≠ none)
    (hpost : ∀ x ∈ post, x.get_property ≠ "end") :
    (∀ t, stopTime env (slice operations gs ge) t =
      .ok (match env.parseDatetime v with
        | some d => d
        | none => e.get_timestamp)) ∧
    (env.StartScalar → ∀ (before after : List Operation) (op : Operation) (old out : String)
        (ls0 ls : Int),
      slice operations gs ge = before ++ op :: after →
      formatLoop env dateformat (slice operations gs ge) before "" ls0 = .ok (out, ls) →
      op.get_property = "start" → op.get_value = none → op.get_old_value = some old →
      formatOperation env dateformat (slice operations gs ge) op out ls =
        .ok (out ++ "Start deleted (duration: " ++
          env.formatDuration ((match env.parseDatetime v with
            | some d => d
            | none => e.get_timestamp) - ls) ++ ")." ++ "\n", ls) ∧
      formatForInfo env operations gs ge dateformat ls0 =
        finish (formatLoop env dateformat (slice operations gs ge) after
          (out ++ "Start deleted (duration: " ++
            env.formatDuration ((match env.parseDatetime v with
              | some d => d
              | none => e.get_timestamp) - ls) ++ ")." ++ "\n") ls)) ∧
    (∀ (op : Operation) (grp2 : List Operation) (out : String) (ls : Int),
      ¬ (op.get_property = "start" ∧ op.get_value = none ∧ op.get_old_value ≠ none) →
      formatOperation env dateformat (slice operations gs ge) op out ls =
        formatOperation env dateformat grp2 op out ls) := by
  have hupd := group_slice_updates operations gs ge hg
  have hstop : ∀ t, stopTime env (slice operations gs ge) t =
      .ok (match env.parseDatetime v with
        | some d => d
        | none => e.get_timestamp) := by
    intro t
    have hu : ∀ x ∈ pre ++ e :: post, x.is_update = true := by
      rw [← hgrp]
      exact hupd
    rw [hgrp]
    exact stopTime_last_end env pre post e v t hu he hv hpre hpost
  refine ⟨hstop, ?_, ?_⟩
  · intro hs before after op old out ls0 ls hsplit hbefore hp hvo hoo
    have hu : op.is_update = true := hupd op (by rw [hsplit]; simp)
    have hbody := formatOperation_start_deleted env dateformat (slice operations gs ge) op old
      out ls _ hs hu hp hvo hoo (hstop op.get_timestamp)
    exact ⟨hbody, formatForInfo_split env dateformat operations gs ge before after op ls0 ls ls
      out _ hsplit hbefore hbody⟩
  · intro op grp2 out ls hnot
    unfold formatOperation handleDeletion
    cases hvo : op.get_value with
    | some w => rfl
    | none =>
      cases hoo : op.get_old_value with
      | none => rfl
      | some old =>
        have hp : op.get_property ≠ "start" := fun hp => hnot ⟨hp, hvo, by simp [hoo]⟩
        simp [hp]

/-- The examples of C6: a deletion of `start` at 1000 with `last_start =
900`, beside one update of `end` at 1001. With the new value "950" the stop
time is 950 and the deletion reports 50 seconds; with the new value "soon",
which is not a date, the stop time is the timestamp 1001 of the update of
`end`. -/
theorem end_override_last_wins_witness :
    stopTime demoEnv (slice endOnce 0 2) 1000 = .ok 950 ∧
    formatForInfo demoEnv endOnce 0 2 "" 900 =
      .ok (some "Start deleted (duration: 50s).\nEnd set to '950'.\n", 900) ∧
    stopTime demoEnv [mkUpdate "start" none (some "900") 1000,
      mkUpdate "end" (some "soon") none 1001] 1000 = .ok 1001 ∧
    formatForInfo demoEnv [mkUpdate "start" none (some "900") 1000,
      mkUpdate "end" (some "soon") none 1001] 0 2 "" 900 =
      .ok (some "Start deleted (duration: 101s).\nEnd set to 'soon'.\n", 900) :=
  ⟨(end_override_last_wins demoEnv "" endOnce 0 2 [mkUpdate "start" none (some "900") 1000] []
      (mkUpdate "end" (some "950") none 1001) "950" (by decide) (by decide) (by decide)
      (by decide) (by decide) (by simp)).1 1000,
    by decide, by decide, by decide⟩

/-- C7 (start addition): an update of `start` with the new value `v` present
and the old value absent contributes the sentence "Start set to '<rendered
v>'." and leaves `last_start` at the epoch parsed from `v`; when `v` is not
a date, `last_start` keeps its incoming value, the sentence is contributed
all the same and the call succeeds, as on the group of that one update. -/
theorem start_added (env : Env) (dateformat : String) (grp : List Operation) (op : Operation)
    (v out : String) (ls : Int) (hs : env.StartScalar) (hu : op.is_update = true)
    (hp : op.get_property = "start") (hv : op.get_value = some v)
    (ho : op.get_old_value = none) :
    formatOperation env dateformat grp op out ls =
      .ok (out ++ "Start set to '" ++ env.renderAttribute "start" v dateformat ++ "'." ++ "\n",
        match env.parseDatetime v with
        | some d => d
        | none => ls) ∧
    formatForInfo env [op] 0 1 dateformat ls =
      .ok (some ("Start set to '" ++ env.renderAttribute "start" v dateformat ++ "'." ++ "\n"),
        match env.parseDatetime v with
        | some d => d
        | none => ls) := by
  obtain ⟨ha, ht, hd⟩ := hs
  have hc : ucFirst "start" = "Start" := by decide
  have hbody : ∀ (g : List Operation) (o : String), formatOperation env dateformat g op o ls =
      .ok (o ++ "Start set to '" ++ env.renderAttribute "start" v dateformat ++ "'." ++ "\n",
        match env.parseDatetime v with
        | some d => d
        | none => ls) := by
    intro g o
    simp [formatOperation, handleDeletion, handleAddition, handleChange, hu, hv, ho, hp, ha,
      ht, hd, hc, String.append_assoc]
  refine ⟨hbody grp out, ?_⟩
  have hsl : slice [op] 0 1 = [op] := rfl
  simp only [formatForInfo, hsl, formatLoop, hbody, finish_newline, String.empty_append]

/-- The examples of C7: the new value "900" sets `last_start` to 900; the
new value "soon" is not a date and leaves `last_start` at 5. -/
theorem start_added_witness :
    formatForInfo demoEnv [mkUpdate "start" (some "900") none 1000] 0 1 "" 5 =
      .ok (some "Start set to '900'.\n", 900) ∧
    formatForInfo demoEnv [mkUpdate "start" (some "soon") none 1000] 0 1 "" 5 =
      .ok (some "Start set to 'soon'.\n", 5) :=
  ⟨(start_added demoEnv "" [] (mkUpdate "start" (some "900") none 1000) "900" "" 5
      ⟨by decide, by decide, by decide⟩ (by decide) (by decide) (by decide) (by decide)).2,
    by decide⟩

/-- C8 (start change): an update of `start` with the new value `v` and the
old value both present, at its place in a group of the replay: when `v`
parses to the epoch `d`, it sets `last_start` to `d` and contributes "Start
changed from '<rendered old>' to '<rendered v>'."; when `v` is not a date,
the failure is propagated: the operation, the call of `formatForInfo` on
its group and the journal of the record all fail with the error of the
date, unlike on the addition path. -/
theorem start_changed (env : Env) (dateformat : String) (task : Task)
    (operations : List Operation) (gpre gpost : List (Nat × Nat)) (gs ge : Nat)
    (pre post : List Operation) (op : Operation) (v old out : String)
    (rows : List JournalRow) (ls0 ls : Int)
    (hs : env.StartScalar)
    (hg : groups operations = gpre ++ (gs, ge) :: gpost)
    (hrep : replayGroups env dateformat operations gpre 0 [] = .ok (rows, ls0))
    (hgrp : slice operations gs ge = pre ++ op :: post)
    (hpre : formatLoop env dateformat (slice operations gs ge) pre "" ls0 = .ok (out, ls))
    (hu : op.is_update = true) (hp : op.get_property = "start")
    (hv : op.get_value = some v) (ho : op.get_old_value = some old) :
    (∀ d, env.parseDatetime v = some d →
      formatOperation env dateformat (slice operations gs ge) op out ls =
        .ok (out ++ "Start changed from '" ++ env.renderAttribute "start" old dateformat ++
          "' to '" ++ env.renderAttribute "start" v dateformat ++ "'." ++ "\n", d)) ∧
    (env.parseDatetime v = none →
      formatOperation env dateformat (slice operations gs ge) op out ls =
        .error Err.invalid_date ∧
      formatForInfo env operations gs ge dateformat ls0 = .error Err.invalid_date ∧
      journal env dateformat task operations = .error Err.invalid_date) := by
  obtain ⟨ha, ht, hd⟩ := hs
  have hc : ucFirst "start" = "Start" := by decide
  constructor
  · intro d hd2
    simp [formatOperation, handleDeletion, handleAddition, handleChange, hu, hv, ho, hp, ha,
      ht, hd, hc, hd2, String.append_assoc]
  · intro hn
    have hbody : formatOperation env dateformat (slice operations gs ge) op out ls =
        .error Err.invalid_date := by
      simp [formatOperation, handleDeletion, handleAddition, handleChange, hu, hv, ho, hp, ha,
        ht, hd, hn]
    have hcall := formatForInfo_error env dateformat operations gs ge pre post op ls0 ls out _
      hgrp hpre hbody
    refine ⟨hbody, hcall, ?_⟩
    rw [journal_eq_replay, hg, replayGroups_append, hrep]
    simp only [replayGroups, hcall]

/-- The examples of C8: the change of `start` from "900" to "950" sets
`last_start` to 950; the change to "soon", which is not a date, makes the
journal of the record fail. -/
theorem start_changed_witness :
    formatForInfo demoEnv [mkUpdate "start" (some "950") (some "900") 1000] 0 1 "" 0 =
      .ok (some "Start changed from '900' to '950'.\n", 950) ∧
    journal demoEnv "" stoppedTask [mkUpdate "start" (some "soon") (some "900") 1000] =
      .error Err.invalid_date :=
  ⟨by decide,
    ((start_changed demoEnv "" stoppedTask [mkUpdate "start" (some "soon") (some "900") 1000]
      [] [] 0 1 [] [] (mkUpdate "start" (some "soon") (some "900") 1000) "soon" "900" "" [] 0 0
      ⟨by decide, by decide, by decide⟩ (by decide) (by decide) (by decide) (by decide)
      (by decide) (by decide) (by decide) (by decide)).2 (by decide)).2.2⟩

/-- C9 (`last_start` is threaded across the replay): the journal loop is the
fold over the groups in which each group is formatted with the `last_start`
that the groups before it left, from the seed on; a call of `formatForInfo`
changes `last_start` only through the updates of `start` whose new value is
present and parses. Hence the group `[gs, ge)` is entered with the parsed
new value of the most recent start addition or change before index `gs`,
or with the seed; and a deletion of `start` at timestamp `t`, in a group
without an update of `end`, contributes the duration `t - T`, `T` being the
parsed new value of the most recent start addition or change before it in
the list, in its group or in an earlier one, or the seed. -/
theorem last_start_threaded (env : Env) (dateformat : String) (operations : List Operation)
    (gpre gpost : List (Nat × Nat)) (gs ge : Nat) (pre post : List Operation) (op : Operation)
    (old out : String) (rows : List JournalRow) (seed ls0 ls : Int)
    (hs : env.StartScalar)
    (hg : groups operations = gpre ++ (gs, ge) :: gpost)
    (hrep : replayGroups env dateformat operations gpre seed [] = .ok (rows, ls0))
    (hgrp : slice operations gs ge = pre ++ op :: post)
    (hpre : formatLoop env dateformat (slice operations gs ge) pre "" ls0 = .ok (out, ls))
    (hp : op.get_property = "start") (hv : op.get_value = none)
    (ho : op.get_old_value = some old)
    (hend : ∀ x ∈ slice operations gs ge, x.get_property ≠ "end") :
    journalLoop env dateformat operations (operations.length + 1) 0 seed [] =
      replayGroups env dateformat operations (groups operations) seed [] ∧
    ls0 = lastStartAfter env seed (operations.take gs) ∧
    (∀ msg ls2, formatForInfo env operations gs ge dateformat ls0 = .ok (msg, ls2) →
      ls2 = lastStartAfter env ls0 (slice operations gs ge)) ∧
    ls = lastStartAfter env seed (operations.take (gs + pre.length)) ∧
    formatOperation env dateformat (slice operations gs ge) op out ls =
      .ok (out ++ "Start deleted (duration: " ++
        env.formatDuration (op.get_timestamp -
          lastStartAfter env seed (operations.take (gs + pre.length))) ++ ")." ++ "\n",
        ls) := by
  have hmem : (gs, ge) ∈ groups operations := by
    rw [hg]
    simp
  have hupd := group_slice_updates operations gs ge hmem
  have hu : op.is_update = true := hupd op (by rw [hgrp]; simp)
  have hpos := lastStartAfter_position env operations gpre gpost gs ge pre post op seed hg hgrp
  have h0 := replayGroups_last_start env dateformat operations hs gpre seed ls0 [] rows hrep
  have h1 := formatLoop_last_start env dateformat _ hs pre "" out ls0 ls hpre
  have hls0 : ls0 = lastStartAfter env seed (operations.take gs) := by
    rw [h0]
    exact hpos.1
  have hls : ls = lastStartAfter env seed (operations.take (gs + pre.length)) := by
    rw [h1, h0]
    exact hpos.2
  refine ⟨?_, hls0, ?_, hls, ?_⟩
  · rw [journalLoop_eq_replay env dateformat operations _ 0 seed [] (by omega), groups,
      groupLoop_fuel operations (operations.length + 1) operations.length 0 (by omega)
        (by omega)]
  · intro msg ls2 hf
    exact formatForInfo_last_start env dateformat operations gs ge ls0 ls2 msg hs hf
  · rw [← hls]
    exact formatOperation_start_deleted env dateformat _ op old out ls _ hs hu hp hv ho
      (stopTime_no_end env _ _ hupd hend)

/-- An instance of C9: `start` is set to "900" at 1000, another property
changes at 2000, and `start` is deleted at 3000, in three groups. The
deletion counts from 900, the value left two groups before. -/
theorem last_start_threaded_witness :
    groups startThenStop = [(0, 1), (1, 2), (2, 3)] ∧
    formatOperation demoEnv "" (slice startThenStop 2 3)
      (mkUpdate "start" none (some "900") 3000) "" 900 =
      .ok ("" ++ "Start deleted (duration: " ++
        demoEnv.formatDuration ((mkUpdate "start" none (some "900") 3000).get_timestamp -
          lastStartAfter demoEnv 0 (startThenStop.take (2 + ([] : List Operation).length))) ++
        ")." ++ "\n", 900) ∧
    journal demoEnv "" stoppedTask startThenStop =
      .ok [{ timestamp := 1000, description := "Start set to '900'.\n" },
        { timestamp := 2000, description := "Priority set to 'H'.\n" },
        { timestamp := 3000, description := "Start deleted (duration: 2100s).\n" }] :=
  ⟨by decide,
    (last_start_threaded demoEnv "" startThenStop [(0, 1), (1, 2)] [] 2 3 [] []
      (mkUpdate "start" none (some "900") 3000) "900" ""
      [{ timestamp := 1000, description := "Start set to '900'.\n" },
        { timestamp := 2000, description := "Priority set to 'H'.\n" }] 0 900 900
      ⟨by decide, by decide, by decide⟩ (by decide) (by decide) (by decide) (by decide)
      (by decide) (by decide) (by decide) (by decide)).2.2.2.2,
    by decide⟩

/-- C11 (addition sentences): an update with the new value `v` present and
the old value absent, whose property is not `modified`, `depends` or
`tags`, contributes exactly one sentence, followed by a line break:
"Annotation of '<v>' added." for an annotation property, "Tag '<name>'
added." for a tag property, "Dependency on '<target>' added." for a
dependency property, and "<Capitalized property> set to '<rendered v>'."
for any other property, `start` among them; `last_start` changes for the
property `start` only. The source tests the classes in this order. -/
theorem addition_sentences (env : Env) (dateformat : String) (grp : List Operation)
    (op : Operation) (v : String) (out : String) (ls : Int)
    (hu : op.is_update = true) (hv : op.get_value = some v) (ho : op.get_old_value = none)
    (h1 : op.get_property ≠ "modified") (h2 : op.get_property ≠ "depends")
    (h3 : op.get_property ≠ "tags") :
    (env.isAnnotationAttr op.get_property = true →
      formatOperation env dateformat grp op out ls =
        .ok (out ++ "Annotation of '" ++ v ++ "' added." ++ "\n", ls)) ∧
    (env.isAnnotationAttr op.get_property = false → env.isTagAttr op.get_property = true →
      formatOperation env dateformat grp op out ls =
        .ok (out ++ "Tag '" ++ env.attr2Tag op.get_property ++ "' added." ++ "\n", ls)) ∧
    (env.isAnnotationAttr op.get_property = false → env.isTagAttr op.get_property = false →
      env.isDepAttr op.get_property = true →
      formatOperation env dateformat grp op out ls =
        .ok (out ++ "Dependency on '" ++ env.attr2Dep op.get_property ++ "' added." ++ "\n", ls)) ∧
    (env.isAnnotationAttr op.get_property = false → env.isTagAttr op.get_property = false →
      env.isDepAttr op.get_property = false →
      formatOperation env dateformat grp op out ls =
        .ok (out ++ ucFirst op.get_property ++ " set to '" ++
          env.renderAttribute op.get_property v dateformat ++ "'." ++ "\n",
          if op.get_property = "start" then
            match env.parseDatetime v with
            | some d => d
            | none => ls
          else ls)) := by
  refine ⟨?_, ?_, ?_, ?_⟩
  · intro ha
    simp [formatOperation, handleDeletion, handleAddition, handleChange, hu, hv, ho, h1, h2, h3,
      ha, String.append_assoc]
  · intro ha ht
    simp [formatOperation, handleDeletion, handleAddition, handleChange, hu, hv, ho, h1, h2, h3,
      ha, ht, String.append_assoc]
  · intro ha ht hd
    simp [formatOperation, handleDeletion, handleAddition, handleChange, hu, hv, ho, h1, h2, h3,
      ha, ht, hd, String.append_assoc]
  · intro ha ht hd
    simp [formatOperation, handleDeletion, handleAddition, handleChange, hu, hv, ho, h1, h2, h3,
      ha, ht, hd, String.append_assoc]

/-- The example of C11: the update of `priority` from nothing to "H"
contributes "Priority set to 'H'."; and one addition of each other
class. -/
theorem addition_sentences_witness :
    ucFirst "priority" = "Priority" ∧
    formatOperation demoEnv "" [] (mkUpdate "priority" (some "H") none 5) "" 0 =
      .ok ("" ++ ucFirst "priority" ++ " set to '" ++
        demoEnv.renderAttribute "priority" "H" "" ++ "'." ++ "\n",
        if "priority" = "start" then
          match demoEnv.parseDatetime "H" with
          | some d => d
          | none => 0
        else 0) ∧
    formatOperation demoEnv "" [] (mkUpdate "priority" (some "H") none 5) "" 0 =
      .ok ("Priority set to 'H'.\n", 0) ∧
    formatForInfo demoEnv [mkUpdate "annotation_1700000000" (some "call back") none 5,
      mkUpdate "tag_work" (some "x") none 5, mkUpdate "dep_abc" (some "x") none 5] 0 3 "" 0 =
      .ok (some ("Annotation of 'call back' added.\nTag 'work' added.\n" ++
        "Dependency on 'abc' added.\n"), 0) :=
  ⟨by decide,
    (addition_sentences demoEnv "" [] (mkUpdate "priority" (some "H") none 5) "H" "" 0
      (by decide) (by decide) (by decide) (by decide) (by decide) (by decide)).2.2.2
      (by decide) (by decide) (by decide),
    by decide, by decide⟩


/-- The counterexample to C12: the change of `start` from "900" to "soon",
a property that is not `modified`, `depends` or `tags` and of no special
class, with both values present. The new value is not a date: the
operation contributes no sentence, the call on its group fails. -/
theorem change_of_start_without_sentence :
    demoEnv.isTagAttr "start" = false ∧ demoEnv.isDepAttr "start" = false ∧
    demoEnv.isAnnotationAttr "start" = false ∧ demoEnv.parseDatetime "soon" = none ∧
    formatOperation demoEnv "" [mkUpdate "start" (some "soon") (some "900") 1000]
      (mkUpdate "start" (some "soon") (some "900") 1000) "" 0 = .error Err.invalid_date ∧
    formatForInfo demoEnv [mkUpdate "start" (some "soon") (some "900") 1000] 0 1 "" 0 ≠
      .ok (some "Start changed from '900' to 'soon'.\n", 0) ∧
    formatForInfo demoEnv [mkUpdate "start" (some "soon") (some "900") 1000] 0 1 "" 0 =
      .error Err.invalid_date := by
  decide

/-- C12, amended (change sentences): an update with the new value `v` and
the old value `old` both present, whose property is not `modified`,
`depends` or `tags`, contributes no sentence when the property is a tag or
dependency property, "Annotation changed to '<v>'." when it is an
annotation property, and "<Capitalized property> changed from '<rendered
old>' to '<rendered v>'." for any other property; for the property `start`
that holds when `v` parses as a date, which then becomes `last_start`, and
when `v` does not parse the operation fails and contributes nothing. -/
theorem change_sentences (env : Env) (dateformat : String) (grp : List Operation)
    (op : Operation) (v old : String) (out : String) (ls : Int)
    (hu : op.is_update = true) (hv : op.get_value = some v) (ho : op.get_old_value = some old)
    (h1 : op.get_property ≠ "modified") (h2 : op.get_property ≠ "depends")
    (h3 : op.get_property ≠ "tags") :
    (env.isTagAttr op.get_property = true ∨ env.isDepAttr op.get_property = true →
      formatOperation env dateformat grp op out ls = .ok (out, ls)) ∧
    (env.isTagAttr op.get_property = false → env.isDepAttr op.get_property = false →
      env.isAnnotationAttr op.get_property = true →
      formatOperation env dateformat grp op out ls =
        .ok (out ++ "Annotation changed to '" ++ v ++ "'." ++ "\n", ls)) ∧
    (env.isTagAttr op.get_property = false → env.isDepAttr op.get_property = false →
      env.isAnnotationAttr op.get_property = false → op.get_property ≠ "start" →
      formatOperation env dateformat grp op out ls =
        .ok (out ++ ucFirst op.get_property ++ " changed from '" ++
          env.renderAttribute op.get_property old dateformat ++ "' to '" ++
          env.renderAttribute op.get_property v dateformat ++ "'." ++ "\n", ls)) ∧
    (env.isTagAttr op.get_property = false → env.isDepAttr op.get_property = false →
      env.isAnnotationAttr op.get_property = false → op.get_property = "start" →
      ∀ d, env.parseDatetime v = some d →
      formatOperation env dateformat grp op out ls =
        .ok (out ++ ucFirst op.get_property ++ " changed from '" ++
          env.renderAttribute op.get_property old dateformat ++ "' to '" ++
          env.renderAttribute op.get_property v dateformat ++ "'." ++ "\n", d)) ∧
    (env.isTagAttr op.get_property = false → env.isDepAttr op.get_property = false →
      env.isAnnotationAttr op.get_property = false → op.get_property = "start" →
      env.parseDatetime v = none →
      formatOperation env dateformat grp op out ls = .error Err.invalid_date) := by
  refine ⟨?_, ?_, ?_, ?_, ?_⟩
  · intro ht
    rcases ht with ht | ht <;>
      simp [formatOperation, handleDeletion, handleAddition, handleChange, hu, hv, ho, h1, h2,
        h3, ht]
  · intro ht hd ha
    simp [formatOperation, handleDeletion, handleAddition, handleChange, hu, hv, ho, h1, h2, h3,
      ha, ht, hd, String.append_assoc]
  · intro ht hd ha hs
    simp [formatOperation, handleDeletion, handleAddition, handleChange, hu, hv, ho, h1, h2, h3,
      ha, ht, hd, hs, String.append_assoc]
  · intro ht hd ha hs d hp
    rw [hs] at ht hd ha
    simp [formatOperation, handleDeletion, handleAddition, handleChange, hu, hv, ho,
      ha, ht, hd, hs, hp, String.append_assoc]
  · intro ht hd ha hs hp
    rw [hs] at ht hd ha
    simp [formatOperation, handleDeletion, handleAddition, handleChange, hu, hv, ho,
      ha, ht, hd, hs, hp]

/-- The example of C12: the update of `priority` from "H" to "M"
contributes "Priority changed from 'H' to 'M'."; a change of a tag
contributes nothing and a change of an annotation its own sentence. -/
theorem change_sentences_witness :
    formatOperation demoEnv "" [] (mkUpdate "priority" (some "M") (some "H") 5) "" 0 =
      .ok ("" ++ ucFirst "priority" ++ " changed from '" ++
        demoEnv.renderAttribute "priority" "H" "" ++ "' to '" ++
        demoEnv.renderAttribute "priority" "M" "" ++ "'." ++ "\n", 0) ∧
    formatOperation demoEnv "" [] (mkUpdate "priority" (some "M") (some "H") 5) "" 0 =
      .ok ("Priority changed from 'H' to 'M'.\n", 0) ∧
    formatForInfo demoEnv [mkUpdate "tag_work" (some "y") (some "x") 5,
      mkUpdate "annotation_1700000000" (some "call back") (some "call") 5] 0 2 "" 0 =
      .ok (some "Annotation changed to 'call back'.\n", 0) :=
  ⟨(change_sentences demoEnv "" [] (mkUpdate "priority" (some "M") (some "H") 5) "M" "H" "" 0
      (by decide) (by decide) (by decide) (by decide) (by decide) (by decide)).2.2.1
      (by decide) (by decide) (by decide) (by decide),
    by decide, by decide⟩


/-- An update of `modified`, `depends` or `tags` leaves the stream and
`last_start` as they are. -/
theorem formatOperation_skipped (env : Env) (dateformat : String) (grp : List Operation)
    (op : Operation) (out : String) (ls : Int) (hu : op.is_update = true)
    (hp : op.get_property = "modified" ∨ op.get_property = "depends" ∨
      op.get_property = "tags") :
    formatOperation env dateformat grp op out ls = .ok (out, ls) := by
  rcases hp with hp | hp | hp <;> simp [formatOperation, hu, hp]

/-- The loop over updates of `modified`, `depends` and `tags` leaves the
stream and `last_start` as they are. -/
theorem formatLoop_skipped (env : Env) (dateformat : String) (grp : List Operation) :
    ∀ (l : List Operation) (out : String) (ls : Int),
      (∀ x ∈ l, x.is_update = true ∧ (x.get_property = "modified" ∨
        x.get_property = "depends" ∨ x.get_property = "tags")) →
      formatLoop env dateformat grp l out ls = .ok (out, ls) := by
  intro l
  induction l with
  | nil => intro out ls _; rfl
  | cons op l ih =>
    intro out ls h
    have h0 := h op (List.mem_cons_self _ _)
    simp only [formatLoop, formatOperation_skipped env dateformat grp op out ls h0.1 h0.2]
    exact ih out ls (fun x hx => h x (List.mem_cons_of_mem _ hx))

/-- C13 (skipped properties and dropped groups): an update whose property is
`modified`, `depends` or `tags` contributes no sentence and does not change
`last_start`, whatever its new and old values. Therefore, for a group
`[gs, ge)` of such updates only, `formatForInfo` returns no narrative and
leaves `last_start`, the replay passes the group without a row, and the
journal of a record with that group is the journal without it: the rows
and `last_start` of the groups before go on to the groups after. -/
theorem skipped_properties_drop_group (env : Env) (dateformat : String) (task : Task)
    (operations : List Operation) (gpre gpost : List (Nat × Nat)) (gs ge : Nat)
    (rows0 : List JournalRow) (ls0 : Int)
    (hg : groups operations = gpre ++ (gs, ge) :: gpost)
    (hrep : replayGroups env dateformat operations gpre 0 [] = .ok (rows0, ls0))
    (hall : ∀ x ∈ slice operations gs ge, x.get_property = "modified" ∨
      x.get_property = "depends" ∨ x.get_property = "tags") :
    (∀ (op : Operation) (grp : List Operation) (out : String) (ls : Int),
      op.is_update = true →
      op.get_property = "modified" ∨ op.get_property = "depends" ∨ op.get_property = "tags" →
      formatOperation env dateformat grp op out ls = .ok (out, ls)) ∧
    (∀ ls, formatForInfo env operations gs ge dateformat ls = .ok (none, ls)) ∧
    (∀ rest ls rows, replayGroups env dateformat operations ((gs, ge) :: rest) ls rows =
      replayGroups env dateformat operations rest ls rows) ∧
    journal env dateformat task operations =
      match replayGroups env dateformat operations gpost ls0 rows0 with
      | .error e => .error e
      | .ok (rows, _) => .ok rows := by
  have hmem : (gs, ge) ∈ groups operations := by
    rw [hg]
    simp
  have hupd := group_slice_updates operations gs ge hmem
  have hcall : ∀ ls, formatForInfo env operations gs ge dateformat ls = .ok (none, ls) := by
    intro ls
    rw [formatForInfo, formatLoop_skipped env dateformat _ _ "" ls
      (fun x hx => ⟨hupd x hx, hall x hx⟩)]
    rfl
  have hstep : ∀ rest ls rows,
      replayGroups env dateformat operations ((gs, ge) :: rest) ls rows =
        replayGroups env dateformat operations rest ls rows := by
    intro rest ls rows
    simp only [replayGroups, hcall]
  refine ⟨fun op grp out ls hu hp => formatOperation_skipped env dateformat grp op out ls hu hp,
    hcall, hstep, ?_⟩
  rw [journal_eq_replay, hg, replayGroups_append, hrep]
  simp only [hstep]

/-- The example of C13: a group of one update of `modified` gives no
narrative, and the journal of a record with that one operation has no
row; between two groups with a narrative the group is passed over. -/
theorem skipped_properties_drop_group_witness :
    formatForInfo demoEnv [mkUpdate "modified" (some "1700000000") (some "1600000000") 100]
      0 1 "" 7 = .ok (none, 7) ∧
    journal demoEnv "" stoppedTask
      [mkUpdate "modified" (some "1700000000") (some "1600000000") 100] = .ok [] ∧
    journal demoEnv "" stoppedTask skippedBetween =
      .ok [{ timestamp := 100, description := "Priority set to 'H'.\n" },
        { timestamp := 300, description := "Project set to 'home'.\n" }] :=
  ⟨(skipped_properties_drop_group demoEnv "" stoppedTask
      [mkUpdate "modified" (some "1700000000") (some "1600000000") 100] [] [] 0 1 [] 0
      (by decide) (by decide) (by decide)).2.1 7,
    by decide, by decide⟩


/-! ## The claim about an update of `end` without a new value -/

/-- The scan for the stop time fails on a group of updates that holds an
update of `end` without a new value. -/
theorem stopTime_absent_end (env : Env) (e : Operation) (hep : e.get_property = "end")
    (hev : e.get_value = none) : ∀ (l : List Operation) (t : Int),
    (∀ x ∈ l, x.is_update = true) → e ∈ l →
    stopTime env l t = .error Err.bad_optional_access := by
  intro l
  induction l with
  | nil => intro t _ he; simp at he
  | cons op l ih =>
    intro t hu he
    have h1 := hu op (List.mem_cons_self _ _)
    have hu2 : ∀ x ∈ l, x.is_update = true := fun x hx => hu x (List.mem_cons_of_mem _ hx)
    simp only [stopTime, h1, Bool.not_true, Bool.false_eq_true, if_false, beq_iff_eq]
    by_cases hp : op.get_property = "end"
    · simp only [hp, if_true]
      cases hv : op.get_value with
      | none => rfl
      | some v =>
        have hne : e ≠ op := by
          intro h
          rw [h, hv] at hev
          cases hev
        have hel : e ∈ l := by
          rcases List.mem_cons.1 he with h | h
          · exact absurd h hne
          · exact h
        cases hd : env.parseDatetime v with
        | none => simp only [hd]; exact ih _ hu2 hel
        | some d => simp only [hd]; exact ih _ hu2 hel
    · simp only [hp, if_false]
      have hne : e ≠ op := by
        intro h
        rw [h] at hep
        exact hp hep
      have hel : e ∈ l := by
        rcases List.mem_cons.1 he with h | h
        · exact absurd h hne
        · exact h
      exact ih _ hu2 hel

/-- C16 (an absent end value is not a fallback case): in a group of updates
that holds a deletion of `start` (new value absent, old value present),
reached without a failure of the operations before it, and an update of
`end` whose new value is absent, the scan for the stop time gives no stop
time, from whatever timestamp it starts: taking the value of the absent
optional throws `std::bad_optional_access`, which the handler of the date
error does not catch, so the deletion fails and the call of
`formatForInfo` fails with that error and returns no narrative. -/
theorem absent_end_value_fails (env : Env) (dateformat : String)
    (operations : List Operation) (gs ge : Nat) (pre post : List Operation)
    (op e : Operation) (old out : String) (ls0 ls : Int)
    (hs : env.StartScalar)
    (hupd : ∀ x ∈ slice operations gs ge, x.is_update = true)
    (hgrp : slice operations gs ge = pre ++ op :: post)
    (hpre : formatLoop env dateformat (slice operations gs ge) pre "" ls0 = .ok (out, ls))
    (hp : op.get_property = "start") (hv : op.get_value = none)
    (ho : op.get_old_value = some old)
    (he : e ∈ slice operations gs ge) (hep : e.get_property = "end")
    (hev : e.get_value = none) :
    (∀ t, stopTime env (slice operations gs ge) t = .error Err.bad_optional_access) ∧
    formatOperation env dateformat (slice operations gs ge) op out ls =
      .error Err.bad_optional_access ∧
    formatForInfo env operations gs ge dateformat ls0 = .error Err.bad_optional_access ∧
    (∀ msg ls2, formatForInfo env operations gs ge dateformat ls0 ≠ .ok (msg, ls2)) := by
  obtain ⟨ha, ht, hd⟩ := hs
  have hstop := fun t => stopTime_absent_end env e hep hev (slice operations gs ge) t hupd he
  have hu : op.is_update = true := hupd op (by rw [hgrp]; simp)
  have hbody : formatOperation env dateformat (slice operations gs ge) op out ls =
      .error Err.bad_optional_access := by
    simp [formatOperation, handleDeletion, hu, hv, ho, hp, ha, ht, hd, hstop]
  have hcall := formatForInfo_error env dateformat operations gs ge pre post op ls0 ls out _
    hgrp hpre hbody
  refine ⟨hstop, hbody, hcall, ?_⟩
  intro msg ls2 h
  rw [hcall] at h
  cases h

/-- An instance of C16: a priority set, `start` deleted and `end` deleted in
one second. The priority goes through, the deletion of `start` fails, and
the call has no narrative, although the update of `end` carries a
timestamp to fall back to. -/
theorem absent_end_value_fails_witness :
    formatLoop demoEnv "" (slice endDeletedGroup 0 3)
      [mkUpdate "priority" (some "H") none 1000] "" 900 =
      .ok ("Priority set to 'H'.\n", 900) ∧
    formatForInfo demoEnv endDeletedGroup 0 3 "" 900 = .error Err.bad_optional_access :=
  ⟨by decide,
    (absent_end_value_fails demoEnv "" endDeletedGroup 0 3
      [mkUpdate "priority" (some "H") none 1000] [mkUpdate "end" none (some "950") 1000]
      (mkUpdate "start" none (some "900") 1000) (mkUpdate "end" none (some "950") 1000)
      "900" "Priority set to 'H'.\n" 900 900
      ⟨by decide, by decide, by decide⟩ (by decide) (by decide) (by decide) (by decide)
      (by decide) (by decide) (by decide) (by decide) (by decide)).2.2.1⟩


/-! ## The claim about the joining of the sentences -/

/-- The body of the loop of `formatForInfo` appends to the stream the
sentence of the operation, if it has one, and a line break after it. -/
theorem formatOperation_eq_sentence (env : Env) (dateformat : String) (grp : List Operation)
    (op : Operation) (out : String) (ls : Int) :
    formatOperation env dateformat grp op out ls =
      match operationSentence env dateformat grp op ls with
      | .error e => .error e
      | .ok (none, ls2) => .ok (out, ls2)
      | .ok (some s, ls2) => .ok (out ++ s ++ "\n", ls2) := by
  unfold formatOperation operationSentence
  by_cases hu : op.is_update = true
  swap
  · have hu2 : op.is_update = false := by simpa using hu
    simp [hu2]
  simp only [hu, Bool.not_true, Bool.false_eq_true, if_false]
  by_cases hk : (op.get_property == "modified" || op.get_property == "depends" ||
      op.get_property == "tags") = true
  · simp only [hk, if_true]
  have hk2 : (op.get_property == "modified" || op.get_property == "depends" ||
      op.get_property == "tags") = false := by simpa using hk
  simp only [hk2, Bool.false_eq_true, if_false]
  cases hv : op.get_value with
  | none =>
    cases ho : op.get_old_value with
    | none => simp [handleDeletion, handleAddition, handleChange, hv, ho]
    | some old =>
      simp only [handleDeletion, handleAddition, handleChange, hv, ho]
      split_ifs
      · simp [String.append_assoc]
      · simp [String.append_assoc]
      · simp [String.append_assoc]
      · cases hst : stopTime env grp op.get_timestamp with
        | error e => simp
        | ok t => simp [String.append_assoc]
      · simp [String.append_assoc]
  | some v =>
    cases ho : op.get_old_value with
    | none =>
      simp only [handleDeletion, handleAddition, handleChange, hv, ho]
      split_ifs <;> simp [String.append_assoc]
    | some old =>
      simp only [handleDeletion, handleAddition, handleChange, hv, ho]
      split_ifs
      · simp
      · simp [String.append_assoc]
      · cases hd : env.parseDatetime v with
        | none => simp
        | some d => simp [String.append_assoc]
      · simp [String.append_assoc]


/-- The loop of `formatForInfo` appends to the stream the sentences of the
operations in order, a line break after each one. -/
theorem formatLoop_eq_sentences (env : Env) (dateformat : String) (grp : List Operation) :
    ∀ (l : List Operation) (out : String) (ls : Int),
      formatLoop env dateformat grp l out ls =
        match groupSentences env dateformat grp l ls with
        | .error e => .error e
        | .ok (ss, ls2) => .ok (out ++ terminateLines ss, ls2) := by
  intro l
  induction l with
  | nil =>
    intro out ls
    simp [formatLoop, groupSentences, terminateLines]
  | cons op l ih =>
    intro out ls
    simp only [formatLoop, groupSentences, formatOperation_eq_sentence]
    cases hop : operationSentence env dateformat grp op ls with
    | error e => rfl
    | ok r =>
      obtain ⟨s, ls1⟩ := r
      cases s with
      | none =>
        simp only []
        exact ih out ls1
      | some s =>
        simp only []
        rw [ih]
        cases hrest : groupSentences env dateformat grp l ls1 with
        | error e => rfl
        | ok r2 =>
          obtain ⟨ss, ls2⟩ := r2
          simp only [terminateLines, String.append_assoc]

/-- Sentences with a line break after each one are the sentences joined by
single line breaks, with one more line break at the end. -/
theorem terminateLines_eq_joinLines : ∀ (s : String) (ss : List String),
    terminateLines (s :: ss) = joinLines (s :: ss) ++ "\n" := by
  intro s ss
  induction ss generalizing s with
  | nil => simp [terminateLines, joinLines]
  | cons t ss ih =>
    rw [terminateLines, ih t, joinLines]
    simp only [String.append_assoc]

/-- The counterexample to C15: the group of the one update of `priority`
from nothing to "H" produces the one sentence "Priority set to 'H'.", and
the narrative that `formatForInfo` returns is not exactly that sentence: a
line break follows it. -/
theorem one_sentence_ends_with_line_break :
    groupSentences demoEnv "" [mkUpdate "priority" (some "H") none 5]
      [mkUpdate "priority" (some "H") none 5] 0 = .ok (["Priority set to 'H'."], 0) ∧
    joinLines ["Priority set to 'H'."] = "Priority set to 'H'." ∧
    formatForInfo demoEnv [mkUpdate "priority" (some "H") none 5] 0 1 "" 0 ≠
      .ok (some (joinLines ["Priority set to 'H'."]), 0) ∧
    formatForInfo demoEnv [mkUpdate "priority" (some "H") none 5] 0 1 "" 0 =
      .ok (some "Priority set to 'H'.\n", 0) := by
  decide

/-- C15, amended (narrative joining): the call of `formatForInfo` on a group
fails when a sentence of the group fails, returns no narrative when the
group produces no sentence, and for a group that produces the sentences
`s :: ss`, in group order, returns them joined with a single line break
between consecutive sentences and followed by one more line break: every
sentence of the narrative ends with a line break, the last one too. So a
group producing exactly one sentence returns that sentence and a line
break. -/
theorem narrative_joining (env : Env) (dateformat : String) (operations : List Operation)
    (gs ge : Nat) (ls : Int) :
    formatForInfo env operations gs ge dateformat ls =
      (match groupSentences env dateformat (slice operations gs ge)
          (slice operations gs ge) ls with
        | .error e => .error e
        | .ok ([], ls2) => .ok (none, ls2)
        | .ok (s :: ss, ls2) => .ok (some (joinLines (s :: ss) ++ "\n"), ls2)) ∧
    (∀ s ls2, groupSentences env dateformat (slice operations gs ge)
        (slice operations gs ge) ls = .ok ([s], ls2) →
      formatForInfo env operations gs ge dateformat ls = .ok (some (s ++ "\n"), ls2)) := by
  have hmain : formatForInfo env operations gs ge dateformat ls =
      (match groupSentences env dateformat (slice operations gs ge)
          (slice operations gs ge) ls with
        | .error e => .error e
        | .ok ([], ls2) => .ok (none, ls2)
        | .ok (s :: ss, ls2) => .ok (some (joinLines (s :: ss) ++ "\n"), ls2)) := by
    rw [formatForInfo, formatLoop_eq_sentences]
    cases hg : groupSentences env dateformat (slice operations gs ge)
        (slice operations gs ge) ls with
    | error e => rfl
    | ok r =>
      obtain ⟨ss, ls2⟩ := r
      cases ss with
      | nil => rfl
      | cons s ss =>
        simp only [String.empty_append, terminateLines_eq_joinLines, finish_newline]
  refine ⟨hmain, ?_⟩
  intro s ls2 h
  rw [hmain, h]
  rfl

/-- An instance of the amended C15: a group of three updates, the second
one of `modified`, produces two sentences; the narrative is the two joined
by a line break, with a line break at the end. -/
theorem narrative_joining_witness :
    groupSentences demoEnv "" (slice threeInOneSecond 0 3) (slice threeInOneSecond 0 3) 0 =
      .ok (["Priority set to 'H'.", "Project changed from 'home' to 'work'."], 0) ∧
    formatForInfo demoEnv threeInOneSecond 0 3 "" 0 =
      .ok (some ("Priority set to 'H'.\nProject changed from 'home' to 'work'." ++ "\n"), 0) ∧
    formatForInfo demoEnv [mkUpdate "priority" (some "H") none 5] 0 1 "" 0 =
      .ok (some ("Priority set to 'H'." ++ "\n"), 0) :=
  ⟨by decide, by decide,
    (narrative_joining demoEnv "" [mkUpdate "priority" (some "H") none 5] 0 1 0).2
      "Priority set to 'H'." 0 (by decide)⟩


/-! ## The claim about the assembly of the journal -/

/-- The replay of the groups adds to the rows the assembly of the narratives
of the groups. -/
theorem replayGroups_eq_assemble (env : Env) (dateformat : String)
    (operations : List Operation) :
    ∀ (G : List (Nat × Nat)) (ls : Int) (rows : List JournalRow),
      replayGroups env dateformat operations G ls rows =
        match groupNarratives env dateformat operations G ls with
        | .error e => .error e
        | .ok (msgs, ls2) => .ok (rows ++ assemble operations G msgs, ls2) := by
  intro G
  induction G with
  | nil =>
    intro ls rows
    simp [replayGroups, groupNarratives, assemble]
  | cons g G ih =>
    intro ls rows
    obtain ⟨gs, ge⟩ := g
    simp only [replayGroups, groupNarratives]
    cases hf : formatForInfo env operations gs ge dateformat ls with
    | error e => rfl
    | ok r =>
      obtain ⟨msg, ls1⟩ := r
      cases msg with
      | none =>
        simp only []
        rw [ih]
        cases hn : groupNarratives env dateformat operations G ls1 with
        | error e => rfl
        | ok r2 =>
          obtain ⟨msgs, ls2⟩ := r2
          simp only [assemble]
      | some m =>
        simp only []
        rw [ih]
        cases hn : groupNarratives env dateformat operations G ls1 with
        | error e => rfl
        | ok r2 =>
          obtain ⟨msgs, ls2⟩ := r2
          simp only [assemble, List.append_assoc, List.singleton_append]

/-- A narrative that `formatForInfo` returns is not the empty string. -/
theorem formatForInfo_nonempty (env : Env) (dateformat : String) (operations : List Operation)
    (gs ge : Nat) (ls ls2 : Int) (msg : String)
    (h : formatForInfo env operations gs ge dateformat ls = .ok (some msg, ls2)) :
    msg ≠ "" := by
  unfold formatForInfo finish at h
  cases hl : formatLoop env dateformat (slice operations gs ge) (slice operations gs ge) "" ls with
  | error e => simp [hl] at h
  | ok r =>
    obtain ⟨o, l1⟩ := r
    simp only [hl] at h
    split_ifs at h with hz
    · cases h
    · simp only [Except.ok.injEq, Prod.mk.injEq, Option.some.injEq] at h
      rw [← h.1]
      intro he
      rw [he] at hz
      exact hz rfl

/-- There is one narrative, present or not, for each group, and a present
narrative is not empty. -/
theorem groupNarratives_shape (env : Env) (dateformat : String) (operations : List Operation) :
    ∀ (G : List (Nat × Nat)) (ls ls2 : Int) (msgs : List (Option String)),
      groupNarratives env dateformat operations G ls = .ok (msgs, ls2) →
      msgs.length = G.length ∧ ∀ m ∈ msgs, m ≠ some "" := by
  intro G
  induction G with
  | nil =>
    intro ls ls2 msgs h
    simp only [groupNarratives, Except.ok.injEq, Prod.mk.injEq] at h
    rw [← h.1]
    simp
  | cons g G ih =>
    intro ls ls2 msgs h
    obtain ⟨gs, ge⟩ := g
    simp only [groupNarratives] at h
    cases hf : formatForInfo env operations gs ge dateformat ls with
    | error e => simp [hf] at h
    | ok r =>
      obtain ⟨msg, ls1⟩ := r
      simp only [hf] at h
      cases hn : groupNarratives env dateformat operations G ls1 with
      | error e => simp [hn] at h
      | ok r2 =>
        obtain ⟨ms, l2⟩ := r2
        simp only [hn, Except.ok.injEq, Prod.mk.injEq] at h
        obtain ⟨h1, h2⟩ := ih ls1 l2 ms hn
        rw [← h.1]
        refine ⟨by simp [h1], ?_⟩
        intro m hm
        rcases List.mem_cons.1 hm with hm | hm
        · subst hm
          cases m with
          | none => simp
          | some s =>
            have := formatForInfo_nonempty env dateformat operations gs ge ls ls1 s hf
            simpa using this
        · exact h2 m hm

/-- The timestamps of the rows of the assembly are among the timestamps of
the anchors of the groups, in the same order. -/
theorem assemble_sublist (operations : List Operation) :
    ∀ (G : List (Nat × Nat)) (msgs : List (Option String)),
      ((assemble operations G msgs).map (fun r => r.timestamp)).Sublist
        (G.map (fun g => anchorTimestamp operations g.1)) := by
  intro G
  induction G with
  | nil =>
    intro msgs
    simp [assemble]
  | cons g G ih =>
    intro msgs
    obtain ⟨gs, ge⟩ := g
    cases msgs with
    | nil => simp [assemble]
    | cons m msgs =>
      cases m with
      | none =>
        simp only [assemble, List.map_cons]
        exact List.Sublist.cons _ (ih msgs)
      | some s =>
        simp only [assemble, List.map_cons]
        exact List.Sublist.cons₂ _ (ih msgs)


/-- Only an update has the rank of an update. -/
theorem kind_of_rank_one (k : Kind) (h : k.rank = 1) : k = Kind.Update := by
  cases k <;> simp [Kind.rank] at h ⊢

/-- What `operator<` being false says of two operations. -/
theorem not_lt_iff (a b : Operation) :
    b.lt a = false ↔ a.kind.rank ≤ b.kind.rank ∧
      (a.kind.rank = b.kind.rank → a.get_timestamp ≤ b.get_timestamp) := by
  simp only [Operation.lt, Bool.or_eq_false_iff, decide_eq_false_iff_not,
    Bool.and_eq_false_imp, decide_eq_true_eq]
  constructor
  · rintro ⟨h1, h2⟩
    exact ⟨by omega, fun h => by have := h2 h.symm; omega⟩
  · rintro ⟨h1, h2⟩
    exact ⟨by omega, fun h => by have := h2 h.symm; omega⟩

/-- In a sorted list the anchor of a later group is more than one second
after the anchor of an earlier group. -/
theorem anchors_ascending (operations : List Operation)
    (hs : operations.Pairwise (fun a b => b.lt a = false)) :
    (groups operations).Pairwise
      (fun g h => anchorTimestamp operations g.1 + 1 < anchorTimestamp operations h.1) := by
  have hp : (groups operations).Pairwise (fun g h => g.2 ≤ h.1) :=
    (groupLoop_partition operations operations.length 0 (by omega)).1
  have hget := List.pairwise_iff_getElem.1 hs
  refine List.Pairwise.imp_of_mem ?_ hp
  rintro ⟨gs, ge⟩ ⟨hs1, he1⟩ hg hh hgh
  simp only at hgh
  obtain ⟨ag, hag, hagu, hlt, hle, -, hstop⟩ := group_window_aux operations gs ge hg
  obtain ⟨ah, hah, hahu, hlt2, hle2, -, -⟩ := group_window_aux operations hs1 he1 hh
  obtain ⟨hi1, hag2⟩ := List.getElem?_eq_some.1 hag
  obtain ⟨hi2, hah2⟩ := List.getElem?_eq_some.1 hah
  have hge : ge < operations.length := by omega
  have hka : ag.kind = Kind.Update := by simpa [Operation.is_update] using hagu
  have hkh : ah.kind = Kind.Update := by simpa [Operation.is_update] using hahu
  have hy : operations[ge]? = some operations[ge] := List.getElem?_eq_getElem hge
  -- the operation at the end of the earlier group is an update
  have h1 := (not_lt_iff _ _).1 (hget gs ge hi1 hge hlt)
  rw [hag2] at h1
  have hrank : (operations[ge]).kind.rank = 1 ∧
      (operations[ge]).get_timestamp ≤ ah.get_timestamp := by
    by_cases heq : ge = hs1
    · subst heq
      rw [hah2]
      exact ⟨by rw [hkh]; rfl, le_refl _⟩
    · have h2 := (not_lt_iff _ _).1 (hget ge hs1 hge hi2 (by omega))
      rw [hah2] at h2
      have hr : (operations[ge]).kind.rank = 1 := by
        have r1 : ag.kind.rank = 1 := by rw [hka]; rfl
        have r2 : ah.kind.rank = 1 := by rw [hkh]; rfl
        omega
      refine ⟨hr, h2.2 ?_⟩
      rw [hr, hkh]
      rfl
  have hyu : (operations[ge]).is_update = true := by
    simp [Operation.is_update, kind_of_rank_one _ hrank.1]
  have hgap := hstop _ hy
  have hgap2 : ¬ ((operations[ge]).get_timestamp - ag.get_timestamp ≤ 1) :=
    fun h => hgap ⟨hyu, h⟩
  simp only [anchorTimestamp, hag, hah]
  omega


/-- C14 (journal assembly): for the operations as the ordering stage leaves
them, the journal is the assembly of the narratives of the groups, each
group formatted with the `last_start` of the groups before it: exactly one
row for each group whose narrative is not empty and none for a group
without narrative, in group order (and no journal when a narrative fails);
each row carries the timestamp of the operation at the start of its group,
the anchor, whether the anchor contributed a sentence or not; and the
timestamps of the rows are in ascending order. -/
theorem journal_assembly (env : Env) (dateformat : String) (task : Task)
    (input operations : List Operation) (hsort : IsStdSort input operations) :
    (journal env dateformat task operations =
      match groupNarratives env dateformat operations (groups operations) 0 with
      | .error e => .error e
      | .ok (msgs, _) => .ok (assemble operations (groups operations) msgs)) ∧
    (∀ msgs ls, groupNarratives env dateformat operations (groups operations) 0 =
        .ok (msgs, ls) →
      msgs.length = (groups operations).length ∧ ∀ m ∈ msgs, m ≠ some "") ∧
    (∀ g ∈ groups operations, ∃ anchor, operations[g.1]? = some anchor ∧
      anchorTimestamp operations g.1 = anchor.get_timestamp) ∧
    (∀ rows, journal env dateformat task operations = .ok rows →
      rows.Pairwise (fun a b => a.timestamp < b.timestamp)) := by
  have hj : journal env dateformat task operations =
      match groupNarratives env dateformat operations (groups operations) 0 with
      | .error e => .error e
      | .ok (msgs, _) => .ok (assemble operations (groups operations) msgs) := by
    rw [journal_eq_replay, replayGroups_eq_assemble]
    cases hn : groupNarratives env dateformat operations (groups operations) 0 with
    | error e => rfl
    | ok r =>
      obtain ⟨msgs, ls⟩ := r
      simp
  refine ⟨hj, ?_, ?_, ?_⟩
  · intro msgs ls h
    exact groupNarratives_shape env dateformat operations _ _ _ _ h
  · rintro ⟨gs, ge⟩ hg
    obtain ⟨anchor, ha, -⟩ := group_window_aux operations gs ge hg
    exact ⟨anchor, ha, by simp [anchorTimestamp, ha]⟩
  · intro rows h
    rw [hj] at h
    cases hn : groupNarratives env dateformat operations (groups operations) 0 with
    | error e => simp [hn] at h
    | ok r =>
      obtain ⟨msgs, ls⟩ := r
      simp only [hn, Except.ok.injEq] at h
      rw [← h]
      have hasc := anchors_ascending operations hsort.2
      have hmap : ((groups operations).map
          (fun g => anchorTimestamp operations g.1)).Pairwise (fun a b => a < b) := by
        rw [List.pairwise_map]
        exact hasc.imp (fun hab => by omega)
      have hsub := List.Pairwise.sublist
        (assemble_sublist operations (groups operations) msgs) hmap
      exact List.pairwise_map.1 hsub

/-- An instance of C14: a sorted history with three groups. The first group
starts at an update of `modified` at 100, which has no sentence, and its
row carries that timestamp; the second group, of `tags` only, has no row;
the rows are in ascending order. -/
theorem journal_assembly_witness :
    groups sortedHistory = [(1, 3), (3, 4), (4, 5)] ∧
    groupNarratives demoEnv "" sortedHistory (groups sortedHistory) 0 =
      .ok ([some "Priority set to 'H'.\n", none, some "Project set to 'home'.\n"], 0) ∧
    journal demoEnv "" stoppedTask sortedHistory =
      .ok [{ timestamp := 100, description := "Priority set to 'H'.\n" },
        { timestamp := 300, description := "Project set to 'home'.\n" }] ∧
    ([{ timestamp := 100, description := "Priority set to 'H'.\n" },
        { timestamp := 300, description := "Project set to 'home'.\n" }] :
      List JournalRow).Pairwise (fun a b => a.timestamp < b.timestamp) :=
  ⟨by decide, by decide, by decide,
    (journal_assembly demoEnv "" stoppedTask sortedHistory sortedHistory
      ⟨by decide, by decide⟩).2.2.2 _ (by decide)⟩


end CmdInfo
